import Mathlib

/-!
# Verification of the trial-lifecycle subsystem of the guild-management bot

Shallow embedding of `src/client.py`.  Conventions:

* Timestamps (`added_at_utc`, `trial_end_utc`, ...) are stored by the program as
  UTC ISO-8601 strings produced by `datetime.now(timezone.utc).isoformat()` and
  compared lexicographically by SQLite; on such strings the lexicographic order
  agrees with the chronological order, so we model instants as integers
  (`Time := Int`, seconds) and compare with `≤`.
* Python strings are modelled as lists of code points (`List Nat`); `str.lower`
  becomes a per-character map, `str.strip`/`str.split` are modelled on the
  ASCII whitespace set used by the names that occur in the store.
* Each SQLite table becomes a list of rows kept in insertion (rowid) order;
  `INSERT` appends, `UPDATE ... WHERE` maps over the rows, `DELETE ... WHERE`
  filters, `SELECT ... WHERE` filters, `ORDER BY added_at_utc ASC` is a stable
  insertion sort by `addedAt`.
* `async` functions are pure state transformers; the external messaging
  collaborator of the sweep is a parameter `send`, with `send = false`
  standing for `channel.send` raising an exception.
-/

namespace TrialBot

/-- UTC instants, in seconds.  See the header comment for why an integer model
of the ISO-8601 strings is faithful. -/
abbrev Time := Int

/-- Model of `timedelta(days=14)` in seconds: the fixed trial window length. -/
def trialPeriod : Int := 14 * 86400

/-! ## Python string helpers: `strip`, `split`, `lower` (from `_normalize_name`) -/

/-- Whitespace test used by Python `str.strip`/`str.split` (ASCII part). -/
def isSpace (c : Nat) : Bool :=
  decide (c = 32 ∨ c = 9 ∨ c = 10 ∨ c = 13 ∨ c = 11 ∨ c = 12)

/-- Python `str.lower`, per code point (ASCII range). -/
def lowerChar (c : Nat) : Nat :=
  if 65 ≤ c ∧ c ≤ 90 then c + 32 else c

/-- Python `str.strip()`: drop leading and trailing whitespace. -/
def strip (l : List Nat) : List Nat :=
  ((l.dropWhile isSpace).reverse.dropWhile isSpace).reverse

/-- Python `str.split()` (no separator): split on whitespace runs, dropping
empty chunks. -/
def words (l : List Nat) : List (List Nat) :=
  (l.splitOnP isSpace).filter (fun w => !w.isEmpty)

/-- Python `" ".join(ws)`. -/
def joinSp : List (List Nat) → List Nat
  | [] => []
  | [w] => w
  | w :: ws => w ++ 32 :: joinSp ws

/-- Model of `src/client.py` `_normalize_name`:
`" ".join(name.strip().split()).lower()`. -/
def _normalize_name (name : List Nat) : List Nat :=
  (joinSp (words (strip name))).map lowerChar

/-- Code points of a Lean string literal, for concrete test inputs. -/
def toCodes (s : String) : List Nat := s.data.map Char.toNat

/-! ## Data model: the five record families of the store -/

/-- A row of the `players` table (linked trials). -/
structure PlayerRow where
  guildId : Nat
  userId : Nat
  addedAt : Time
  trialEnd : Time
  notes : List Nat
  notifiedDone : Bool
  notifiedAt : Option Time
deriving Repr, DecidableEq

/-- A row of the `players_external` table (named trials). -/
structure ExternalRow where
  guildId : Nat
  name : List Nat
  nameKey : List Nat
  addedAt : Time
  trialEnd : Time
  notifiedDone : Bool
  notifiedAt : Option Time
deriving Repr, DecidableEq

/-- A row of the `player_notes` table. -/
structure NotesRow where
  guildId : Nat
  userId : Nat
  charactersLevel : List Nat
  prevGuildAlliance : List Nat
  optimized : List Nat
  contentPreference : List Nat
  objectives : List Nat
  age : List Nat
  contribution : List Nat
  updatedAt : Time
deriving Repr, DecidableEq

/-- A row of the `guild_settings` table. -/
structure GuildSetting where
  guildId : Nat
  trialChannelId : Option Nat
deriving Repr, DecidableEq

/-- The whole store (`players.db`), tables in rowid order. -/
structure DB where
  players : List PlayerRow
  playersExternal : List ExternalRow
  playerNotes : List NotesRow
  guildSettings : List GuildSetting
deriving Repr, DecidableEq

/-! ## Store operations (`# ---------- DB Ops ----------`) -/

/-- Model of `set_trial_channel`: `INSERT ... ON CONFLICT(guild_id) DO UPDATE`. -/
def set_trial_channel (db : DB) (g : Nat) (chan : Option Nat) : DB :=
  if db.guildSettings.any (fun s => s.guildId == g) then
    { db with guildSettings :=
        db.guildSettings.map (fun s =>
          if s.guildId == g then { s with trialChannelId := chan } else s) }
  else
    { db with guildSettings := db.guildSettings ++ [{ guildId := g, trialChannelId := chan }] }

/-- Model of `get_trial_channel_id`: `row[0] if row and row[0] else None` (a stored `0`
or `NULL` channel both read back as `None`). -/
def get_trial_channel_id (db : DB) (g : Nat) : Option Nat :=
  match db.guildSettings.find? (fun s => s.guildId == g) with
  | some s =>
    match s.trialChannelId with
    | some c => if c == 0 then none else some c
    | none => none
  | none => none

/-- Model of `add_player_to_db`: existence check, then insert with
`added_at = now`, `trial_end = now + timedelta(days=14)`.
Returns `(db, created?)`; `created? = false` is the duplicate-key outcome. -/
def add_player_to_db (db : DB) (g u : Nat) (now : Time) : DB × Bool :=
  if db.players.any (fun r => r.guildId == g && r.userId == u) then
    (db, false)
  else
    ({ db with players := db.players ++
        [{ guildId := g, userId := u, addedAt := now, trialEnd := now + trialPeriod,
           notes := [], notifiedDone := false, notifiedAt := none }] }, true)

/-- Model of `remove_player_from_db`: unconditional `DELETE`, reports whether a row
was removed (`changes > 0`). -/
def remove_player_from_db (db : DB) (g u : Nat) : DB × Bool :=
  let remaining := db.players.filter (fun r => !(r.guildId == g && r.userId == u))
  ({ db with players := remaining }, decide (remaining.length < db.players.length))

/-- Model of `fetch_due_trials`: `WHERE guild_id=? AND notified_done=0 AND
trial_end_utc <= now`. -/
def fetch_due_trials (db : DB) (g : Nat) (now : Time) : List PlayerRow :=
  db.players.filter (fun r =>
    r.guildId == g && r.notifiedDone == false && decide (r.trialEnd ≤ now))

/-- Model of `mark_notified`: `UPDATE players SET notified_done=1, notified_at_utc=?
WHERE guild_id=? AND user_id=?`. -/
def mark_notified (db : DB) (g u : Nat) (t : Time) : DB :=
  { db with players := db.players.map (fun r =>
      if r.guildId == g && r.userId == u then
        { r with notifiedDone := true, notifiedAt := some t }
      else r) }

/-- Outcome of `add_player_by_name` (distinguishing its three return
messages). -/
inductive AddNameResult where
  | created
  | invalidName
  | alreadyExists
deriving Repr, DecidableEq

/-- Model of `add_player_by_name`: normalize, reject empty, duplicate check on
`(guild_id, name_key)`, insert storing `name.strip()` for display and the
normalized key. -/
def add_player_by_name (db : DB) (g : Nat) (name : List Nat) (now : Time) :
    DB × AddNameResult :=
  let norm := _normalize_name name
  if norm.isEmpty then (db, .invalidName)
  else if db.playersExternal.any (fun r => r.guildId == g && r.nameKey == norm) then
    (db, .alreadyExists)
  else
    ({ db with playersExternal := db.playersExternal ++
        [{ guildId := g, name := strip name, nameKey := norm, addedAt := now,
           trialEnd := now + trialPeriod, notifiedDone := false, notifiedAt := none }] },
     .created)

/-- Model of `fetch_due_trials_external`: same due query on `players_external`. -/
def fetch_due_trials_external (db : DB) (g : Nat) (now : Time) : List ExternalRow :=
  db.playersExternal.filter (fun r =>
    r.guildId == g && r.notifiedDone == false && decide (r.trialEnd ≤ now))

/-- Model of `mark_notified_external`: `UPDATE players_external SET notified_done=1,
notified_at_utc=? WHERE guild_id=? AND name_key=?`. -/
def mark_notified_external (db : DB) (g : Nat) (key : List Nat) (t : Time) : DB :=
  { db with playersExternal := db.playersExternal.map (fun r =>
      if r.guildId == g && r.nameKey == key then
        { r with notifiedDone := true, notifiedAt := some t }
      else r) }

/-! Listing queries: `ORDER BY added_at_utc ASC` modelled as a stable
insertion sort by `addedAt`. -/

/-- Comparison used by `ORDER BY added_at_utc ASC` on `players`. -/
def byAdded (a b : PlayerRow) : Prop := a.addedAt ≤ b.addedAt

instance : DecidableRel byAdded :=
  fun a b => inferInstanceAs (Decidable (a.addedAt ≤ b.addedAt))

instance : IsTotal PlayerRow byAdded := ⟨fun a b => Int.le_total a.addedAt b.addedAt⟩

instance : IsTrans PlayerRow byAdded := ⟨fun _ _ _ h h' => le_trans h h'⟩

/-- Comparison used by `ORDER BY added_at_utc ASC` on `players_external`. -/
def byAddedE (a b : ExternalRow) : Prop := a.addedAt ≤ b.addedAt

instance : DecidableRel byAddedE :=
  fun a b => inferInstanceAs (Decidable (a.addedAt ≤ b.addedAt))

instance : IsTotal ExternalRow byAddedE := ⟨fun a b => Int.le_total a.addedAt b.addedAt⟩

instance : IsTrans ExternalRow byAddedE := ⟨fun _ _ _ h h' => le_trans h h'⟩

/-- Model of `fetch_all_discord_players`: `WHERE guild_id=? ORDER BY added_at_utc ASC`. -/
def fetch_all_discord_players (db : DB) (g : Nat) : List PlayerRow :=
  (db.players.filter (fun r => r.guildId == g)).insertionSort byAdded

/-- Model of `fetch_all_external_players`: `WHERE guild_id=? ORDER BY added_at_utc ASC`. -/
def fetch_all_external_players (db : DB) (g : Nat) : List ExternalRow :=
  (db.playersExternal.filter (fun r => r.guildId == g)).insertionSort byAddedE

/-! ## Notes operations (`# ---- Notes DB ----`) -/

/-- Model of `upsert_notes`: `INSERT ... ON CONFLICT(guild_id, user_id) DO UPDATE SET`
every supplied field, including `age` and `contribution`. -/
def upsert_notes (db : DB) (g u : Nat)
    (cl pga opt cp obj ag contrib : List Nat) (now : Time) : DB :=
  if db.playerNotes.any (fun r => r.guildId == g && r.userId == u) then
    { db with playerNotes := db.playerNotes.map (fun r =>
        if r.guildId == g && r.userId == u then
          { r with charactersLevel := cl, prevGuildAlliance := pga, optimized := opt,
                   contentPreference := cp, objectives := obj, age := ag,
                   contribution := contrib, updatedAt := now }
        else r) }
  else
    { db with playerNotes := db.playerNotes ++
        [{ guildId := g, userId := u, charactersLevel := cl, prevGuildAlliance := pga,
           optimized := opt, contentPreference := cp, objectives := obj, age := ag,
           contribution := contrib, updatedAt := now }] }

/-- Model of `update_optional_notes`: `UPDATE player_notes SET age=?, contribution=?,
updated_at_utc=? WHERE ...` (no insert). -/
def update_optional_notes (db : DB) (g u : Nat) (ag contrib : List Nat) (now : Time) : DB :=
  { db with playerNotes := db.playerNotes.map (fun r =>
      if r.guildId == g && r.userId == u then
        { r with age := ag, contribution := contrib, updatedAt := now }
      else r) }

/-- Model of `get_notes`: point lookup. -/
def get_notes (db : DB) (g u : Nat) : Option NotesRow :=
  db.playerNotes.find? (fun r => r.guildId == g && r.userId == u)

/-- Model of `PlayerNotesModal.on_submit`: strips the five required inputs and calls
`upsert_notes` with `age=""`, `contribution=""`. -/
def playerNotesModalSubmit (db : DB) (g u : Nat)
    (cl pga opt cp obj : List Nat) (now : Time) : DB :=
  upsert_notes db g u (strip cl) (strip pga) (strip opt) (strip cp) (strip obj) [] [] now

/-! ## Time and status utilities -/

/-- The `(days, hours, minutes)` breakdown computed by `humanize_timedelta`
from `int(abs(delta.total_seconds()))` via the three `divmod` steps. -/
def humanize_components (delta : Int) : Nat × Nat × Nat :=
  let totalSeconds := delta.natAbs
  let m0 := totalSeconds / 60
  let minutes := m0 % 60
  let h0 := m0 / 60
  let hours := h0 % 24
  let days := h0 / 24
  (days, hours, minutes)

/-- One element of the `parts` list built by `humanize_timedelta`. -/
inductive DurPart where
  | days (n : Nat)
  | hours (n : Nat)
  | minutes (n : Nat)
  | zero
deriving Repr, DecidableEq

/-- The `parts` list of `humanize_timedelta`: days if nonzero, hours if
nonzero, minutes if nonzero and days are zero, and `"0m"` when nothing
else was appended. -/
def humanize_parts (delta : Int) : List DurPart :=
  let c := humanize_components delta
  let parts :=
    (if c.1 ≠ 0 then [DurPart.days c.1] else []) ++
    (if c.2.1 ≠ 0 then [DurPart.hours c.2.1] else []) ++
    (if c.2.2 ≠ 0 ∧ c.1 = 0 then [DurPart.minutes c.2.2] else [])
  if parts.isEmpty then [DurPart.zero] else parts

/-- Rendering of one part (`f"{days}j"`, `f"{hours}h"`, `f"{minutes}m"`,
`"0m"`). -/
def renderDurPart : DurPart → String
  | .days n => toString n ++ "j"
  | .hours n => toString n ++ "h"
  | .minutes n => toString n ++ "m"
  | .zero => "0m"

/-- Model of `humanize_timedelta`: `" ".join(parts)`. -/
def humanize_timedelta (delta : Int) : String :=
  String.intercalate " " ((humanize_parts delta).map renderDurPart)

/-- The two status labels of `_status_and_delta`. -/
inductive TrialStatus where
  | enEssai
  | termine
deriving Repr, DecidableEq

/-- Model of `_status_and_delta`: status from `end > now`, plus the composed
description line. -/
def _status_and_delta (added endT now : Time) : TrialStatus × String :=
  let since := humanize_timedelta (now - added)
  if endT > now then
    (.enEssai, "ajoute il y a " ++ since ++ ", reste " ++ humanize_timedelta (endT - now))
  else
    (.termine, "ajoute il y a " ++ since ++ ", termine depuis " ++ humanize_timedelta (now - endT))

/-! ## Concrete stores used as witnesses and counterexamples -/

/-- The empty store. -/
def dbEmpty : DB := { players := [], playersExternal := [], playerNotes := [], guildSettings := [] }

/-- The single record of `dbOne`: linked member `(guild 1, user 2)` added at
instant 100. -/
def rowOne : PlayerRow :=
  { guildId := 1, userId := 2, addedAt := 100, trialEnd := 1209700,
    notes := [], notifiedDone := false, notifiedAt := none }

/-- The store after adding linked member `(guild 1, user 2)` at instant 100. -/
def dbOne : DB :=
  { players := [rowOne], playersExternal := [], playerNotes := [], guildSettings := [] }

/-- The store after `add_player_by_name` of `"Bob  Dylan"` in guild 1 at instant 0. -/
def dbBob : DB := (add_player_by_name dbEmpty 1 (toCodes "Bob  Dylan") 0).1

/-- Counterexample store for the `/list` ordering: a linked row added at
instant 100 and an external row added earlier, at instant 50 (both still in
trial at `now = 0`). -/
def dbC7 : DB :=
  { players :=
      [{ guildId := 1, userId := 1, addedAt := 100, trialEnd := 1209700,
         notes := [], notifiedDone := false, notifiedAt := none }],
    playersExternal :=
      [{ guildId := 1, name := toCodes "ana", nameKey := toCodes "ana", addedAt := 50,
         trialEnd := 1209650, notifiedDone := false, notifiedAt := none }],
    playerNotes := [], guildSettings := [] }

/-- A notes row for `(guild 1, user 1)` in which the optional fields were
already captured (`age = "23"`, `contribution = "events"`). -/
def rowC8 : NotesRow :=
  { guildId := 1, userId := 1, charactersLevel := toCodes "2 persos",
    prevGuildAlliance := toCodes "GuildeY", optimized := toCodes "non",
    contentPreference := toCodes "pvm", objectives := toCodes "farm",
    age := toCodes "23", contribution := toCodes "events", updatedAt := 10 }

/-- Counterexample store for the notes upsert: `rowC8` already stored. -/
def dbC8 : DB :=
  { players := [], playersExternal := [], playerNotes := [rowC8], guildSettings := [] }

/-! ## The store mutations of the command surface, as one step type -/

/-- The mutations of the store reachable from the slash commands and the
sweep, each applied through the operation defined above.  (`players_external`
has no delete operation anywhere in the program.) -/
inductive Op where
  | addLinked (g u : Nat) (now : Time)
  | addNamed (g : Nat) (name : List Nat) (now : Time)
  | removeLinked (g u : Nat)
  | markLinked (g u : Nat) (t : Time)
  | markExternal (g : Nat) (key : List Nat) (t : Time)
  | upsertNotesOp (g u : Nat) (cl pga opt cp obj ag contrib : List Nat) (now : Time)
  | updateOptionalNotesOp (g u : Nat) (ag contrib : List Nat) (now : Time)
  | setTrialChannelOp (g : Nat) (chan : Option Nat)
deriving Repr, DecidableEq

/-- Effect of one operation on the store. -/
def applyOp (db : DB) : Op → DB
  | .addLinked g u now => (add_player_to_db db g u now).1
  | .addNamed g name now => (add_player_by_name db g name now).1
  | .removeLinked g u => (remove_player_from_db db g u).1
  | .markLinked g u t => mark_notified db g u t
  | .markExternal g key t => mark_notified_external db g key t
  | .upsertNotesOp g u cl pga opt cp obj ag contrib now =>
      upsert_notes db g u cl pga opt cp obj ag contrib now
  | .updateOptionalNotesOp g u ag contrib now => update_optional_notes db g u ag contrib now
  | .setTrialChannelOp g chan => set_trial_channel db g chan

/-- Effect of a sequence of operations, oldest first. -/
def applyOps (db : DB) (ops : List Op) : DB := ops.foldl applyOp db

/-- Creation invariant of `players_external`: every stored row's `name_key`
is the normalization of its stored display `name`. -/
def KeyInv (db : DB) : Prop :=
  ∀ r ∈ db.playersExternal, r.nameKey = _normalize_name r.name

/-- After `mark_notified (g, u)` has acted on an existing record: a record
with the key exists, and every record with the key is notified. -/
def LinkedMarkedInv (g u : Nat) (db : DB) : Prop :=
  (∃ r0 ∈ db.players, r0.guildId = g ∧ r0.userId = u) ∧
  (∀ r ∈ db.players, r.guildId = g → r.userId = u → r.notifiedDone = true)

/-- After `mark_notified_external (g, key)` has acted on an existing record:
a record with the key exists, and every record with the key is notified. -/
def ExternalMarkedInv (g : Nat) (key : List Nat) (db : DB) : Prop :=
  (∃ r0 ∈ db.playersExternal, r0.guildId = g ∧ r0.nameKey = key) ∧
  (∀ r ∈ db.playersExternal, r.guildId = g → r.nameKey = key → r.notifiedDone = true)

/-! ## The notification sweep (`trial_checker`) -/

/-- What the sweep hands to the external messaging collaborator for one due
record (the formatted message mentions the member or the display name and the
added date). -/
inductive SendTarget where
  | linked (userId : Nat) (addedAt : Time)
  | named (name : List Nat) (addedAt : Time)
deriving Repr, DecidableEq

/-- The `for user_id, ... in due_rows` loop of `trial_checker`: send one
message, then `mark_notified`.  `send _ = false` models `channel.send`
raising; the exception aborts the rest of this loop (there is no per-record
handler) and the returned flag `false` reports it to the per-guild handler. -/
def notify_linked_loop (send : SendTarget → Bool) (g : Nat) (t : Time) :
    DB → List PlayerRow → DB × Bool
  | db, [] => (db, true)
  | db, r :: rest =>
    if send (.linked r.userId r.addedAt) then
      notify_linked_loop send g t (mark_notified db g r.userId t) rest
    else (db, false)

/-- The `for name, ... in due_ext` loop of `trial_checker`: the mark uses
`_normalize_name(name)` recomputed from the fetched display name. -/
def notify_external_loop (send : SendTarget → Bool) (g : Nat) (t : Time) :
    DB → List ExternalRow → DB × Bool
  | db, [] => (db, true)
  | db, r :: rest =>
    if send (.named r.name r.addedAt) then
      notify_external_loop send g t (mark_notified_external db g (_normalize_name r.name) t) rest
    else (db, false)

/-- One guild's iteration of `trial_checker`: skip if no usable channel;
otherwise run the linked batch then the external batch inside one
`try/except` (a failure in the linked batch therefore also skips the external
batch, and is swallowed). -/
def process_guild (send : Nat → SendTarget → Bool) (canUse : Nat → Bool)
    (db : DB) (g : Nat) (now : Time) : DB :=
  match get_trial_channel_id db g with
  | none => db
  | some chan =>
    if canUse chan then
      let p1 := notify_linked_loop (send chan) g now db (fetch_due_trials db g now)
      if p1.2 then
        (notify_external_loop (send chan) g now p1.1 (fetch_due_trials_external p1.1 g now)).1
      else p1.1
    else db

/-- One pass of the 5-minute sweep over all known guilds.  `canUse` models
`guild.get_channel` returning a text channel in which the bot may send. -/
def trial_checker (send : Nat → SendTarget → Bool) (canUse : Nat → Bool)
    (guilds : List Nat) (db : DB) (now : Time) : DB :=
  guilds.foldl (fun db g => process_guild send canUse db g now) db

/-- How one linked row may change across a sweep pass: the identity and the
trial window are untouched and `notified` is never reset. -/
def rowEvolves (r r' : PlayerRow) : Prop :=
  r'.guildId = r.guildId ∧ r'.userId = r.userId ∧ r'.addedAt = r.addedAt ∧
  r'.trialEnd = r.trialEnd ∧ (r.notifiedDone = true → r'.notifiedDone = true)

/-- How one named row may change across a sweep pass. -/
def extEvolves (r r' : ExternalRow) : Prop :=
  r'.guildId = r.guildId ∧ r'.name = r.name ∧ r'.nameKey = r.nameKey ∧
  r'.addedAt = r.addedAt ∧ r'.trialEnd = r.trialEnd ∧
  (r.notifiedDone = true → r'.notifiedDone = true)

/-- How the whole store may change across a sweep pass: rows evolve pointwise
and the channel configuration is untouched. -/
def DBEvolves (db db' : DB) : Prop :=
  List.Forall₂ rowEvolves db.players db'.players ∧
  List.Forall₂ extEvolves db.playersExternal db'.playersExternal ∧
  db'.guildSettings = db.guildSettings

/-- All linked records of `g` due at `now` are notified. -/
def GuildDueMarked (g : Nat) (now : Time) (db : DB) : Prop :=
  ∀ r ∈ db.players, r.guildId = g → r.trialEnd ≤ now → r.notifiedDone = true

/-- All named records of `g` due at `now` are notified. -/
def GuildDueMarkedExt (g : Nat) (now : Time) (db : DB) : Prop :=
  ∀ r ∈ db.playersExternal, r.guildId = g → r.trialEnd ≤ now → r.notifiedDone = true

/-- The two linked records of the batch-abort counterexample. -/
def rowC6a : PlayerRow :=
  { guildId := 1, userId := 1, addedAt := 100, trialEnd := 1209700,
    notes := [], notifiedDone := false, notifiedAt := none }

/-- Second due record of the batch-abort counterexample. -/
def rowC6b : PlayerRow :=
  { guildId := 1, userId := 2, addedAt := 200, trialEnd := 1209800,
    notes := [], notifiedDone := false, notifiedAt := none }

/-- Counterexample store: guild 1 has a configured channel (5) and two due
linked records. -/
def dbC6 : DB :=
  { players := [rowC6a, rowC6b], playersExternal := [], playerNotes := [],
    guildSettings := [{ guildId := 1, trialChannelId := some 5 }] }

/-- A messaging collaborator that raises on the first record of the batch
(`user 1`) and succeeds for everything else. -/
def sendC6 : Nat → SendTarget → Bool := fun _ tgt =>
  match tgt with
  | .linked 1 _ => false
  | _ => true

/-! ## `/list` presentation (`list_all`) -/

/-- One presented line of `/list`: either a Discord row or an external row. -/
inductive ListedEntry where
  | linked (r : PlayerRow)
  | named (r : ExternalRow)
deriving Repr, DecidableEq

/-- Model of `added_at` of a presented entry. -/
def entryAdded : ListedEntry → Time
  | .linked r => r.addedAt
  | .named r => r.addedAt

/-- Model of `trial_end` of a presented entry. -/
def entryEnd : ListedEntry → Time
  | .linked r => r.trialEnd
  | .named r => r.trialEnd

/-- Whether a presented entry is a Discord (linked) row. -/
def ListedEntry.isLinked : ListedEntry → Bool
  | .linked _ => true
  | .named _ => false

/-- The order in which `list_all` presents the records: it iterates the
Discord rows then the external rows (each list sorted by the store), routing
each line into the `en essai` block or the `termines` block by
`_status_and_delta`'s test `end > now`, and prints the first block before the
second. -/
def list_all (db : DB) (g : Nat) (now : Time) : List ListedEntry :=
  let disc := (fetch_all_discord_players db g).map ListedEntry.linked
  let ext := (fetch_all_external_players db g).map ListedEntry.named
  let allE := disc ++ ext
  let enEssai := allE.filter (fun e => decide (entryEnd e > now))
  let termines := allE.filter (fun e => !(decide (entryEnd e > now)))
  enEssai ++ termines

end TrialBot

namespace TrialBot

/-! ## Helper lemmas: time and status utilities -/

theorem status_enEssai_iff (added endT now : Time) :
    (_status_and_delta added endT now).1 = TrialStatus.enEssai ↔ endT > now := by
  by_cases h : endT > now <;> simp [_status_and_delta, h]

theorem minutes_not_mem_of_days (delta : Int) (m : Nat)
    (hd : (humanize_components delta).1 ≠ 0) :
    DurPart.minutes m ∉ humanize_parts delta := by
  by_cases hh : (humanize_components delta).2.1 = 0 <;>
    simp [humanize_parts, hd, hh]

theorem parts_ne_nil (delta : Int) : humanize_parts delta ≠ [] := by
  simp only [humanize_parts]
  by_cases h1 : (humanize_components delta).1 = 0 <;>
  by_cases h2 : (humanize_components delta).2.1 = 0 <;>
  by_cases h3 : (humanize_components delta).2.2 = 0 <;>
  simp [h1, h2, h3]

/-- C9: the pure status/label algorithm: the status is `enEssai` (Trialing)
exactly when `trial_end > now` and `termine` (Completed) otherwise; the
minutes component is omitted from the duration breakdown whenever the days
component is nonzero; a duration whose days, hours and minutes components
are all zero renders as the minimal non-empty indicator `"0m"`, never the
empty string; and the parts list is never empty. -/
theorem C9_status_and_duration_rendering :
    (∀ added endT now : Time,
      (_status_and_delta added endT now).1 = TrialStatus.enEssai ↔ endT > now) ∧
    (∀ (delta : Int) (m : Nat), (humanize_components delta).1 ≠ 0 →
      DurPart.minutes m ∉ humanize_parts delta) ∧
    (∀ delta : Int, humanize_components delta = (0, 0, 0) →
      humanize_timedelta delta = "0m" ∧ "0m" ≠ "") ∧
    (∀ delta : Int, humanize_parts delta ≠ []) := by
  refine ⟨status_enEssai_iff, minutes_not_mem_of_days, fun delta h => ⟨?_, by decide⟩,
    parts_ne_nil⟩
  simp [humanize_timedelta, humanize_parts, h, renderDurPart]
  rfl

/-- Witness for C9 at concrete durations: 25 hours has a nonzero days
component so no minutes part appears, and a 30-second duration renders as
`"0m"`. -/
theorem C9_status_and_duration_rendering_witness :
    ((_status_and_delta 0 10 5).1 = TrialStatus.enEssai ↔ (10 : Int) > 5) ∧
    (DurPart.minutes 3 ∉ humanize_parts 90000) ∧
    (humanize_timedelta 30 = "0m" ∧ "0m" ≠ "") :=
  ⟨C9_status_and_duration_rendering.1 0 10 5,
   C9_status_and_duration_rendering.2.1 90000 3 (by decide),
   C9_status_and_duration_rendering.2.2.1 30 (by decide)⟩

end TrialBot

namespace TrialBot

/-! ## Helper lemmas: creation and preservation of the trial window -/

theorem add_player_by_name_players (db : DB) (g : Nat) (n : List Nat) (now : Time) :
    (add_player_by_name db g n now).1.players = db.players := by
  unfold add_player_by_name
  dsimp only
  split
  · rfl
  · split <;> rfl

theorem add_player_to_db_playersExternal (db : DB) (g u : Nat) (now : Time) :
    (add_player_to_db db g u now).1.playersExternal = db.playersExternal := by
  unfold add_player_to_db
  split <;> rfl

theorem set_trial_channel_players (db : DB) (g : Nat) (chan : Option Nat) :
    (set_trial_channel db g chan).players = db.players := by
  unfold set_trial_channel; split <;> rfl

theorem upsert_notes_players (db : DB) (g u : Nat)
    (cl pga opt cp obj ag contrib : List Nat) (now : Time) :
    (upsert_notes db g u cl pga opt cp obj ag contrib now).players = db.players := by
  unfold upsert_notes; split <;> rfl

theorem set_trial_channel_playersExternal (db : DB) (g : Nat) (chan : Option Nat) :
    (set_trial_channel db g chan).playersExternal = db.playersExternal := by
  unfold set_trial_channel; split <;> rfl

theorem upsert_notes_playersExternal (db : DB) (g u : Nat)
    (cl pga opt cp obj ag contrib : List Nat) (now : Time) :
    (upsert_notes db g u cl pga opt cp obj ag contrib now).playersExternal =
      db.playersExternal := by
  unfold upsert_notes; split <;> rfl

theorem add_player_window (db : DB) (g u : Nat) (now : Time) (db' : DB)
    (h : add_player_to_db db g u now = (db', true)) :
    ∃ r : PlayerRow, db'.players = db.players ++ [r] ∧ r.guildId = g ∧ r.userId = u ∧
      r.addedAt = now ∧ r.notifiedDone = false ∧ r.trialEnd - r.addedAt = trialPeriod := by
  unfold add_player_to_db at h
  split at h
  · simp at h
  · simp only [Prod.mk.injEq] at h
    obtain ⟨h1, -⟩ := h
    subst h1
    exact ⟨_, rfl, rfl, rfl, rfl, rfl, show now + trialPeriod - now = trialPeriod by ring⟩

theorem add_player_by_name_window (db : DB) (g : Nat) (name : List Nat) (now : Time) (db' : DB)
    (h : add_player_by_name db g name now = (db', .created)) :
    ∃ r : ExternalRow, db'.playersExternal = db.playersExternal ++ [r] ∧ r.guildId = g ∧
      r.name = strip name ∧ r.nameKey = _normalize_name name ∧
      r.addedAt = now ∧ r.notifiedDone = false ∧ r.trialEnd - r.addedAt = trialPeriod := by
  unfold add_player_by_name at h
  dsimp only at h
  split at h
  · simp at h
  · split at h
    · simp at h
    · simp only [Prod.mk.injEq] at h
      obtain ⟨h1, -⟩ := h
      subst h1
      exact ⟨_, rfl, rfl, rfl, rfl, rfl, rfl,
        show now + trialPeriod - now = trialPeriod by ring⟩

theorem applyOp_players_trial_fields (db : DB) (op : Op) :
    ∀ r' ∈ (applyOp db op).players,
      (∃ r ∈ db.players, r.guildId = r'.guildId ∧ r.userId = r'.userId ∧
        r.addedAt = r'.addedAt ∧ r.trialEnd = r'.trialEnd) ∨
      r'.trialEnd = r'.addedAt + trialPeriod := by
  intro r' hr'
  cases op with
  | addLinked g u now =>
    simp only [applyOp, add_player_to_db] at hr'
    split at hr'
    · exact .inl ⟨r', hr', rfl, rfl, rfl, rfl⟩
    · simp only [List.mem_append, List.mem_singleton] at hr'
      rcases hr' with h | h
      · exact .inl ⟨r', h, rfl, rfl, rfl, rfl⟩
      · subst h
        exact .inr rfl
  | addNamed g name now =>
    rw [applyOp, add_player_by_name_players] at hr'
    exact .inl ⟨r', hr', rfl, rfl, rfl, rfl⟩
  | removeLinked g u =>
    simp only [applyOp, remove_player_from_db] at hr'
    exact .inl ⟨r', List.mem_of_mem_filter hr', rfl, rfl, rfl, rfl⟩
  | markLinked g u t =>
    simp only [applyOp, mark_notified, List.mem_map] at hr'
    obtain ⟨r, hr, hEq⟩ := hr'
    refine .inl ⟨r, hr, ?_⟩
    by_cases hc : (r.guildId == g && r.userId == u) = true
    · rw [if_pos hc] at hEq; subst hEq; exact ⟨rfl, rfl, rfl, rfl⟩
    · rw [if_neg hc] at hEq; subst hEq; exact ⟨rfl, rfl, rfl, rfl⟩
  | markExternal g key t =>
    exact .inl ⟨r', hr', rfl, rfl, rfl, rfl⟩
  | upsertNotesOp g u cl pga opt cp obj ag contrib now =>
    rw [applyOp, upsert_notes_players] at hr'
    exact .inl ⟨r', hr', rfl, rfl, rfl, rfl⟩
  | updateOptionalNotesOp g u ag contrib now =>
    exact .inl ⟨r', hr', rfl, rfl, rfl, rfl⟩
  | setTrialChannelOp g chan =>
    rw [applyOp, set_trial_channel_players] at hr'
    exact .inl ⟨r', hr', rfl, rfl, rfl, rfl⟩

theorem applyOp_external_trial_fields (db : DB) (op : Op) :
    ∀ r' ∈ (applyOp db op).playersExternal,
      (∃ r ∈ db.playersExternal, r.guildId = r'.guildId ∧ r.nameKey = r'.nameKey ∧
        r.addedAt = r'.addedAt ∧ r.trialEnd = r'.trialEnd) ∨
      r'.trialEnd = r'.addedAt + trialPeriod := by
  intro r' hr'
  cases op with
  | addLinked g u now =>
    rw [applyOp, add_player_to_db_playersExternal] at hr'
    exact .inl ⟨r', hr', rfl, rfl, rfl, rfl⟩
  | addNamed g name now =>
    simp only [applyOp, add_player_by_name] at hr'
    split at hr'
    · exact .inl ⟨r', hr', rfl, rfl, rfl, rfl⟩
    · split at hr'
      · exact .inl ⟨r', hr', rfl, rfl, rfl, rfl⟩
      · simp only [List.mem_append, List.mem_singleton] at hr'
        rcases hr' with h | h
        · exact .inl ⟨r', h, rfl, rfl, rfl, rfl⟩
        · subst h
          exact .inr rfl
  | removeLinked g u =>
    exact .inl ⟨r', hr', rfl, rfl, rfl, rfl⟩
  | markLinked g u t =>
    exact .inl ⟨r', hr', rfl, rfl, rfl, rfl⟩
  | markExternal g key t =>
    simp only [applyOp, mark_notified_external, List.mem_map] at hr'
    obtain ⟨r, hr, hEq⟩ := hr'
    refine .inl ⟨r, hr, ?_⟩
    by_cases hc : (r.guildId == g && r.nameKey == key) = true
    · rw [if_pos hc] at hEq; subst hEq; exact ⟨rfl, rfl, rfl, rfl⟩
    · rw [if_neg hc] at hEq; subst hEq; exact ⟨rfl, rfl, rfl, rfl⟩
  | upsertNotesOp g u cl pga opt cp obj ag contrib now =>
    rw [applyOp, upsert_notes_playersExternal] at hr'
    exact .inl ⟨r', hr', rfl, rfl, rfl, rfl⟩
  | updateOptionalNotesOp g u ag contrib now =>
    exact .inl ⟨r', hr', rfl, rfl, rfl, rfl⟩
  | setTrialChannelOp g chan =>
    rw [applyOp, set_trial_channel_playersExternal] at hr'
    exact .inl ⟨r', hr', rfl, rfl, rfl, rfl⟩

/-- C2: every successful add (linked or named) appends exactly one record
whose `trial_end` exceeds its `added_at` by exactly 14 days, and no store
operation ever changes the `added_at`/`trial_end` of an existing record:
these fields are fixed at creation time. -/
theorem C2_fourteen_day_window :
    (∀ (db : DB) (g u : Nat) (now : Time) (db' : DB),
      add_player_to_db db g u now = (db', true) →
      ∃ r : PlayerRow, db'.players = db.players ++ [r] ∧ r.guildId = g ∧ r.userId = u ∧
        r.addedAt = now ∧ r.trialEnd - r.addedAt = trialPeriod) ∧
    (∀ (db : DB) (g : Nat) (name : List Nat) (now : Time) (db' : DB),
      add_player_by_name db g name now = (db', .created) →
      ∃ r : ExternalRow, db'.playersExternal = db.playersExternal ++ [r] ∧ r.guildId = g ∧
        r.addedAt = now ∧ r.trialEnd - r.addedAt = trialPeriod) ∧
    (∀ (db : DB) (op : Op), ∀ r' ∈ (applyOp db op).players,
      (∃ r ∈ db.players, r.guildId = r'.guildId ∧ r.userId = r'.userId ∧
        r.addedAt = r'.addedAt ∧ r.trialEnd = r'.trialEnd) ∨
      r'.trialEnd = r'.addedAt + trialPeriod) ∧
    (∀ (db : DB) (op : Op), ∀ r' ∈ (applyOp db op).playersExternal,
      (∃ r ∈ db.playersExternal, r.guildId = r'.guildId ∧ r.nameKey = r'.nameKey ∧
        r.addedAt = r'.addedAt ∧ r.trialEnd = r'.trialEnd) ∨
      r'.trialEnd = r'.addedAt + trialPeriod) := by
  refine ⟨fun db g u now db' h => ?_, fun db g name now db' h => ?_,
    applyOp_players_trial_fields, applyOp_external_trial_fields⟩
  · obtain ⟨r, h1, h2, h3, h4, -, h6⟩ := add_player_window db g u now db' h
    exact ⟨r, h1, h2, h3, h4, h6⟩
  · obtain ⟨r, h1, h2, -, -, h5, -, h7⟩ := add_player_by_name_window db g name now db' h
    exact ⟨r, h1, h2, h5, h7⟩

/-- Witness for C2: adding `(guild 1, user 2)` at instant 100 to the empty
store yields one record with a trial window of exactly `trialPeriod`. -/
theorem C2_fourteen_day_window_witness :
    ∃ r : PlayerRow, dbOne.players = dbEmpty.players ++ [r] ∧ r.guildId = 1 ∧ r.userId = 2 ∧
      r.addedAt = 100 ∧ r.trialEnd - r.addedAt = trialPeriod :=
  C2_fourteen_day_window.1 dbEmpty 1 2 100 dbOne (by decide)

/-! ## Helper lemmas: marking -/

theorem mark_notified_idem (db : DB) (g u : Nat) (t : Time) :
    mark_notified (mark_notified db g u t) g u t = mark_notified db g u t := by
  cases db with
  | mk p pe pn gs =>
    simp only [mark_notified, List.map_map, DB.mk.injEq, and_true, true_and]
    refine List.map_congr_left fun r _ => ?_
    by_cases hc : (r.guildId == g && r.userId == u) = true <;>
      simp [Function.comp, hc]

theorem mark_notified_external_idem (db : DB) (g : Nat) (key : List Nat) (t : Time) :
    mark_notified_external (mark_notified_external db g key t) g key t =
      mark_notified_external db g key t := by
  cases db with
  | mk p pe pn gs =>
    simp only [mark_notified_external, List.map_map, DB.mk.injEq, and_true, true_and]
    refine List.map_congr_left fun r _ => ?_
    by_cases hc : (r.guildId == g && r.nameKey == key) = true <;>
      simp [Function.comp, hc]

theorem mark_notified_marks (db : DB) (g u : Nat) (t : Time) :
    ∀ r ∈ (mark_notified db g u t).players, r.guildId = g → r.userId = u →
      r.notifiedDone = true := by
  intro r hr hg hu
  simp only [mark_notified, List.mem_map] at hr
  obtain ⟨r0, hr0, rfl⟩ := hr
  by_cases hc : (r0.guildId == g && r0.userId == u) = true
  · simp [hc]
  · simp only [if_neg hc] at hg hu ⊢
    exact absurd (by simp [hg, hu]) hc

theorem mark_notified_external_marks (db : DB) (g : Nat) (key : List Nat) (t : Time) :
    ∀ r ∈ (mark_notified_external db g key t).playersExternal, r.guildId = g →
      r.nameKey = key → r.notifiedDone = true := by
  intro r hr hg hk
  simp only [mark_notified_external, List.mem_map] at hr
  obtain ⟨r0, hr0, rfl⟩ := hr
  by_cases hc : (r0.guildId == g && r0.nameKey == key) = true
  · simp [hc]
  · simp only [if_neg hc] at hg hk ⊢
    exact absurd (by simp [hg, hk]) hc

/-- C4: `mark_notified` (both kinds) is idempotent in effect: repeating the
update with the same timestamp leaves the store in exactly the state of a
single call, a repeat never errors (the operation is total), and after two
calls — with any timestamps — every record under the key has
`notified = true`. -/
theorem C4_mark_notified_idempotent :
    (∀ (db : DB) (g u : Nat) (t : Time),
      mark_notified (mark_notified db g u t) g u t = mark_notified db g u t) ∧
    (∀ (db : DB) (g : Nat) (key : List Nat) (t : Time),
      mark_notified_external (mark_notified_external db g key t) g key t =
        mark_notified_external db g key t) ∧
    (∀ (db : DB) (g u : Nat) (t1 t2 : Time),
      ∀ r ∈ (mark_notified (mark_notified db g u t1) g u t2).players,
        r.guildId = g → r.userId = u → r.notifiedDone = true) ∧
    (∀ (db : DB) (g : Nat) (key : List Nat) (t1 t2 : Time),
      ∀ r ∈ (mark_notified_external (mark_notified_external db g key t1) g key t2).playersExternal,
        r.guildId = g → r.nameKey = key → r.notifiedDone = true) :=
  ⟨mark_notified_idem, mark_notified_external_idem,
   fun db g u t1 t2 => mark_notified_marks (mark_notified db g u t1) g u t2,
   fun db g key t1 t2 => mark_notified_external_marks (mark_notified_external db g key t1) g key t2⟩

/-- Witness for C4 at the one-record store: double marking equals single
marking, and the record ends notified. -/
theorem C4_mark_notified_idempotent_witness :
    (mark_notified (mark_notified dbOne 1 2 5) 1 2 5 = mark_notified dbOne 1 2 5) ∧
    ({ guildId := 1, userId := 2, addedAt := 100, trialEnd := 1209700, notes := [],
       notifiedDone := true, notifiedAt := some 6 } :
        PlayerRow).notifiedDone = true :=
  ⟨C4_mark_notified_idempotent.1 dbOne 1 2 5,
   C4_mark_notified_idempotent.2.2.1 dbOne 1 2 5 6 _ (by decide) (by decide) (by decide)⟩

end TrialBot

namespace TrialBot

theorem mem_fetch_due_trials {db : DB} {g : Nat} {now : Time} {r : PlayerRow} :
    r ∈ fetch_due_trials db g now ↔
      r ∈ db.players ∧ r.guildId = g ∧ r.notifiedDone = false ∧ r.trialEnd ≤ now := by
  simp [fetch_due_trials, List.mem_filter, and_assoc]

theorem mem_fetch_due_trials_external {db : DB} {g : Nat} {now : Time} {r : ExternalRow} :
    r ∈ fetch_due_trials_external db g now ↔
      r ∈ db.playersExternal ∧ r.guildId = g ∧ r.notifiedDone = false ∧ r.trialEnd ≤ now := by
  simp [fetch_due_trials_external, List.mem_filter, and_assoc]

theorem add_player_by_name_duplicate (db : DB) (g : Nat) (name : List Nat) (now : Time)
    (hne : _normalize_name name ≠ [])
    (hex : ∃ r ∈ db.playersExternal, r.guildId = g ∧ r.nameKey = _normalize_name name) :
    add_player_by_name db g name now = (db, .alreadyExists) := by
  have hany : db.playersExternal.any
      (fun r => r.guildId == g && r.nameKey == _normalize_name name) = true := by
    obtain ⟨r, hr, hg, hk⟩ := hex
    exact List.any_eq_true.mpr ⟨r, hr, by simp [hg, hk]⟩
  unfold add_player_by_name
  dsimp only
  rw [if_neg (by simpa [List.isEmpty_iff] using hne), if_pos hany]

end TrialBot

namespace TrialBot

/-- C3: adding a named trial whose normalized form equals the key of an
already-stored name is rejected as `alreadyExists` with no state change; in
the Bob Dylan scenario the first insert succeeds and the two re-spellings
are rejected, leaving exactly one row, keyed by the normalized form. -/
theorem C3_normalized_duplicate_rejected :
    (∀ (db : DB) (g : Nat) (name : List Nat) (now : Time),
      _normalize_name name ≠ [] →
      (∃ r ∈ db.playersExternal, r.guildId = g ∧ r.nameKey = _normalize_name name) →
      add_player_by_name db g name now = (db, .alreadyExists)) ∧
    (add_player_by_name dbEmpty 1 (toCodes "Bob  Dylan") 0).2 = .created ∧
    add_player_by_name dbBob 1 (toCodes "bob dylan") 5 = (dbBob, .alreadyExists) ∧
    add_player_by_name dbBob 1 (toCodes " BOB DYLAN ") 7 = (dbBob, .alreadyExists) ∧
    (dbBob.playersExternal.filter
      (fun r => r.guildId == 1 && r.nameKey == toCodes "bob dylan")).length = 1 ∧
    dbBob.playersExternal.length = 1 :=
  ⟨add_player_by_name_duplicate, by decide, by decide, by decide, by decide, by decide⟩

/-- Witness for C3: a third spelling of the same normalized name is rejected
against the Bob Dylan store. -/
theorem C3_normalized_duplicate_rejected_witness :
    add_player_by_name dbBob 1 (toCodes "Bob Dylan") 9 = (dbBob, .alreadyExists) :=
  C3_normalized_duplicate_rejected.1 dbBob 1 (toCodes "Bob Dylan") 9 (by decide)
    ⟨{ guildId := 1, name := toCodes "Bob  Dylan", nameKey := toCodes "bob dylan",
       addedAt := 0, trialEnd := 1209600, notifiedDone := false, notifiedAt := none },
     by decide, by decide, by decide⟩

end TrialBot

namespace TrialBot

theorem mark_notified_establishes (db : DB) (g u : Nat) (t : Time)
    (hex : ∃ r0 ∈ db.players, r0.guildId = g ∧ r0.userId = u) :
    LinkedMarkedInv g u (mark_notified db g u t) := by
  constructor
  · obtain ⟨r0, hr0, hg, hu⟩ := hex
    refine ⟨_, List.mem_map_of_mem (fun r => if r.guildId == g && r.userId == u then
      { r with notifiedDone := true, notifiedAt := some t } else r) hr0, ?_⟩
    by_cases hc : (r0.guildId == g && r0.userId == u) = true
    · rw [if_pos hc]; exact ⟨hg, hu⟩
    · rw [if_neg hc]; exact ⟨hg, hu⟩
  · exact mark_notified_marks db g u t

theorem mark_notified_external_establishes (db : DB) (g : Nat) (key : List Nat) (t : Time)
    (hex : ∃ r0 ∈ db.playersExternal, r0.guildId = g ∧ r0.nameKey = key) :
    ExternalMarkedInv g key (mark_notified_external db g key t) := by
  constructor
  · obtain ⟨r0, hr0, hg, hk⟩ := hex
    refine ⟨_, List.mem_map_of_mem (fun r => if r.guildId == g && r.nameKey == key then
      { r with notifiedDone := true, notifiedAt := some t } else r) hr0, ?_⟩
    by_cases hc : (r0.guildId == g && r0.nameKey == key) = true
    · rw [if_pos hc]; exact ⟨hg, hk⟩
    · rw [if_neg hc]; exact ⟨hg, hk⟩
  · exact mark_notified_external_marks db g key t

theorem applyOp_preserves_LinkedMarkedInv (g u : Nat) (db : DB) (op : Op)
    (hop : op ≠ Op.removeLinked g u) (h : LinkedMarkedInv g u db) :
    LinkedMarkedInv g u (applyOp db op) := by
  obtain ⟨⟨r0, hr0, hg0, hu0⟩, hall⟩ := h
  cases op with
  | addLinked g' u' now =>
    show LinkedMarkedInv g u (add_player_to_db db g' u' now).1
    unfold add_player_to_db
    split
    · exact ⟨⟨r0, hr0, hg0, hu0⟩, hall⟩
    · rename_i hany
      rw [Bool.not_eq_true, List.any_eq_false] at hany
      constructor
      · exact ⟨r0, List.mem_append_left _ hr0, hg0, hu0⟩
      · intro r hr hrg hru
        rcases List.mem_append.mp hr with h1 | h1
        · exact hall r h1 hrg hru
        · simp only [List.mem_singleton] at h1
          subst h1
          exact absurd (show (r0.guildId == g' && r0.userId == u') = true by
            simp_all) (hany r0 hr0)
  | addNamed g' name now =>
    show LinkedMarkedInv g u (add_player_by_name db g' name now).1
    unfold LinkedMarkedInv
    rw [add_player_by_name_players]
    exact ⟨⟨r0, hr0, hg0, hu0⟩, hall⟩
  | removeLinked g' u' =>
    have hne : ¬(g' = g ∧ u' = u) := fun hc => hop (by rw [hc.1, hc.2])
    show LinkedMarkedInv g u (remove_player_from_db db g' u').1
    unfold remove_player_from_db
    constructor
    · refine ⟨r0, List.mem_filter.mpr ⟨hr0, ?_⟩, hg0, hu0⟩
      simp only [Bool.not_eq_eq_eq_not, Bool.not_true, Bool.and_eq_false_iff]
      by_cases hgg : g' = g
      · refine .inr ?_
        subst hgg
        have : ¬u' = u := fun hc => hne ⟨rfl, hc⟩
        simp [hu0, this, Ne.symm this]
      · refine .inl ?_
        simp [hg0, Ne.symm hgg]
    · intro r hr hrg hru
      exact hall r (List.mem_of_mem_filter hr) hrg hru
  | markLinked g' u' t =>
    show LinkedMarkedInv g u (mark_notified db g' u' t)
    unfold mark_notified LinkedMarkedInv
    constructor
    · refine ⟨_, List.mem_map_of_mem (fun r => if r.guildId == g' && r.userId == u' then
        { r with notifiedDone := true, notifiedAt := some t } else r) hr0, ?_⟩
      by_cases hc : (r0.guildId == g' && r0.userId == u') = true
      · rw [if_pos hc]; exact ⟨hg0, hu0⟩
      · rw [if_neg hc]; exact ⟨hg0, hu0⟩
    · intro r hr hrg hru
      simp only [List.mem_map] at hr
      obtain ⟨x, hx, rfl⟩ := hr
      by_cases hc : (x.guildId == g' && x.userId == u') = true
      · simp [hc]
      · simp only [if_neg hc] at hrg hru ⊢
        exact hall x hx hrg hru
  | markExternal g' key t =>
    exact ⟨⟨r0, hr0, hg0, hu0⟩, hall⟩
  | upsertNotesOp g' u' cl pga opt cp obj ag contrib now =>
    show LinkedMarkedInv g u (upsert_notes db g' u' cl pga opt cp obj ag contrib now)
    unfold LinkedMarkedInv
    rw [upsert_notes_players]
    exact ⟨⟨r0, hr0, hg0, hu0⟩, hall⟩
  | updateOptionalNotesOp g' u' ag contrib now =>
    exact ⟨⟨r0, hr0, hg0, hu0⟩, hall⟩
  | setTrialChannelOp g' chan =>
    show LinkedMarkedInv g u (set_trial_channel db g' chan)
    unfold LinkedMarkedInv
    rw [set_trial_channel_players]
    exact ⟨⟨r0, hr0, hg0, hu0⟩, hall⟩

theorem applyOp_preserves_ExternalMarkedInv (g : Nat) (key : List Nat) (db : DB) (op : Op)
    (h : ExternalMarkedInv g key db) :
    ExternalMarkedInv g key (applyOp db op) := by
  obtain ⟨⟨r0, hr0, hg0, hk0⟩, hall⟩ := h
  cases op with
  | addLinked g' u' now =>
    show ExternalMarkedInv g key (add_player_to_db db g' u' now).1
    unfold ExternalMarkedInv
    rw [add_player_to_db_playersExternal]
    exact ⟨⟨r0, hr0, hg0, hk0⟩, hall⟩
  | addNamed g' name now =>
    show ExternalMarkedInv g key (add_player_by_name db g' name now).1
    unfold add_player_by_name
    dsimp only
    split
    · exact ⟨⟨r0, hr0, hg0, hk0⟩, hall⟩
    · split
      · exact ⟨⟨r0, hr0, hg0, hk0⟩, hall⟩
      · rename_i hany
        rw [Bool.not_eq_true, List.any_eq_false] at hany
        constructor
        · exact ⟨r0, List.mem_append_left _ hr0, hg0, hk0⟩
        · intro r hr hrg hrk
          rcases List.mem_append.mp hr with h1 | h1
          · exact hall r h1 hrg hrk
          · simp only [List.mem_singleton] at h1
            subst h1
            exact absurd (show (r0.guildId == g' && r0.nameKey == _normalize_name name) = true by
              simp_all) (hany r0 hr0)
  | removeLinked g' u' =>
    exact ⟨⟨r0, hr0, hg0, hk0⟩, hall⟩
  | markLinked g' u' t =>
    exact ⟨⟨r0, hr0, hg0, hk0⟩, hall⟩
  | markExternal g' key' t =>
    show ExternalMarkedInv g key (mark_notified_external db g' key' t)
    unfold mark_notified_external ExternalMarkedInv
    constructor
    · refine ⟨_, List.mem_map_of_mem (fun r => if r.guildId == g' && r.nameKey == key' then
        { r with notifiedDone := true, notifiedAt := some t } else r) hr0, ?_⟩
      by_cases hc : (r0.guildId == g' && r0.nameKey == key') = true
      · rw [if_pos hc]; exact ⟨hg0, hk0⟩
      · rw [if_neg hc]; exact ⟨hg0, hk0⟩
    · intro r hr hrg hrk
      simp only [List.mem_map] at hr
      obtain ⟨x, hx, rfl⟩ := hr
      by_cases hc : (x.guildId == g' && x.nameKey == key') = true
      · simp [hc]
      · simp only [if_neg hc] at hrg hrk ⊢
        exact hall x hx hrg hrk
  | upsertNotesOp g' u' cl pga opt cp obj ag contrib now =>
    show ExternalMarkedInv g key (upsert_notes db g' u' cl pga opt cp obj ag contrib now)
    unfold ExternalMarkedInv
    rw [upsert_notes_playersExternal]
    exact ⟨⟨r0, hr0, hg0, hk0⟩, hall⟩
  | updateOptionalNotesOp g' u' ag contrib now =>
    exact ⟨⟨r0, hr0, hg0, hk0⟩, hall⟩
  | setTrialChannelOp g' chan =>
    show ExternalMarkedInv g key (set_trial_channel db g' chan)
    unfold ExternalMarkedInv
    rw [set_trial_channel_playersExternal]
    exact ⟨⟨r0, hr0, hg0, hk0⟩, hall⟩

theorem applyOps_preserves_LinkedMarkedInv (g u : Nat) (ops : List Op)
    (hops : ∀ op ∈ ops, op ≠ Op.removeLinked g u) :
    ∀ db : DB, LinkedMarkedInv g u db → LinkedMarkedInv g u (applyOps db ops) := by
  induction ops with
  | nil => exact fun db h => h
  | cons op ops ih =>
    intro db h
    exact ih (fun o ho => hops o (List.mem_cons_of_mem _ ho)) _
      (applyOp_preserves_LinkedMarkedInv g u db op (hops op (List.mem_cons_self _ _)) h)

theorem applyOps_preserves_ExternalMarkedInv (g : Nat) (key : List Nat) (ops : List Op) :
    ∀ db : DB, ExternalMarkedInv g key db → ExternalMarkedInv g key (applyOps db ops) := by
  induction ops with
  | nil => exact fun db h => h
  | cons op ops ih =>
    intro db h
    exact ih _ (applyOp_preserves_ExternalMarkedInv g key db op h)

end TrialBot

namespace TrialBot

/-- C1: `fetch_due` (for both trial kinds) returns a record if and only if
it is stored under the queried community with `notified = false` and
`trial_end <= now`; and once `mark_notified` has been called on an existing
record, no record under that key is ever returned by `fetch_due` again, at
any later `now`, across any later sequence of store operations (that does
not delete the record: for the linked kind the operation sequence must not
contain the remove of that very key; the named kind has no remove at all). -/
theorem C1_fetch_due_iff_and_mark_permanent :
    (∀ (db : DB) (g : Nat) (now : Time) (r : PlayerRow),
      r ∈ fetch_due_trials db g now ↔
        r ∈ db.players ∧ r.guildId = g ∧ r.notifiedDone = false ∧ r.trialEnd ≤ now) ∧
    (∀ (db : DB) (g : Nat) (now : Time) (r : ExternalRow),
      r ∈ fetch_due_trials_external db g now ↔
        r ∈ db.playersExternal ∧ r.guildId = g ∧ r.notifiedDone = false ∧ r.trialEnd ≤ now) ∧
    (∀ (db : DB) (g u : Nat) (t : Time) (ops : List Op),
      (∃ r0 ∈ db.players, r0.guildId = g ∧ r0.userId = u) →
      (∀ op ∈ ops, op ≠ Op.removeLinked g u) →
      ∀ (now : Time) (r : PlayerRow),
        r ∈ fetch_due_trials (applyOps (mark_notified db g u t) ops) g now →
        ¬(r.guildId = g ∧ r.userId = u)) ∧
    (∀ (db : DB) (g : Nat) (key : List Nat) (t : Time) (ops : List Op),
      (∃ r0 ∈ db.playersExternal, r0.guildId = g ∧ r0.nameKey = key) →
      ∀ (now : Time) (r : ExternalRow),
        r ∈ fetch_due_trials_external (applyOps (mark_notified_external db g key t) ops) g now →
        ¬(r.guildId = g ∧ r.nameKey = key)) := by
  refine ⟨fun db g now r => mem_fetch_due_trials,
    fun db g now r => mem_fetch_due_trials_external, ?_, ?_⟩
  · intro db g u t ops hex hops now r hr hkey
    obtain ⟨-, hall⟩ := applyOps_preserves_LinkedMarkedInv g u ops hops _
      (mark_notified_establishes db g u t hex)
    obtain ⟨hmem, -, hnd, -⟩ := mem_fetch_due_trials.mp hr
    have := hall r hmem hkey.1 hkey.2
    rw [this] at hnd
    simp at hnd
  · intro db g key t ops hex now r hr hkey
    obtain ⟨-, hall⟩ := applyOps_preserves_ExternalMarkedInv g key ops _
      (mark_notified_external_establishes db g key t hex)
    obtain ⟨hmem, -, hnd, -⟩ := mem_fetch_due_trials_external.mp hr
    have := hall r hmem hkey.1 hkey.2
    rw [this] at hnd
    simp at hnd


/-- Witness for C1: the due record of `dbOne` satisfies the characterization,
and after marking it (then re-adding being rejected), its key never reappears
in `fetch_due`. -/
theorem C1_fetch_due_iff_and_mark_permanent_witness :
    (rowOne ∈ fetch_due_trials dbOne 1 2000000 ↔
      rowOne ∈ dbOne.players ∧ rowOne.guildId = 1 ∧ rowOne.notifiedDone = false ∧
        rowOne.trialEnd ≤ 2000000) ∧
    (rowOne ∈ fetch_due_trials
        (applyOps (mark_notified dbOne 1 2 5) [Op.addLinked 1 2 999]) 1 2000000 →
      ¬(rowOne.guildId = 1 ∧ rowOne.userId = 2)) :=
  ⟨C1_fetch_due_iff_and_mark_permanent.1 dbOne 1 2000000 rowOne,
   C1_fetch_due_iff_and_mark_permanent.2.2.1 dbOne 1 2 5 [Op.addLinked 1 2 999]
     ⟨rowOne, by decide, by decide, by decide⟩ (by decide) 2000000 rowOne⟩

end TrialBot

namespace TrialBot

/-! ## Helper lemmas: the normalization algebra of `_normalize_name` -/

theorem splitOnP_snoc_space {c : Nat} (hc : isSpace c = true) (m : List Nat) :
    (m ++ [c]).splitOnP isSpace = m.splitOnP isSpace ++ [[]] := by
  induction m with
  | nil => simp [List.splitOnP_cons, hc]
  | cons d m ih =>
    rw [List.cons_append, List.splitOnP_cons, List.splitOnP_cons]
    by_cases hd : isSpace d = true
    · rw [if_pos hd, if_pos hd, ih]
      rfl
    · rw [if_neg hd, if_neg hd, ih]
      cases hS : m.splitOnP isSpace with
      | nil => exact absurd hS (List.splitOnP_ne_nil _ m)
      | cons h t => rfl

theorem words_cons_space {c : Nat} (hc : isSpace c = true) (l : List Nat) :
    words (c :: l) = words l := by
  simp [words, List.splitOnP_cons, hc]

theorem words_snoc_space {c : Nat} (hc : isSpace c = true) (m : List Nat) :
    words (m ++ [c]) = words m := by
  simp [words, splitOnP_snoc_space hc m, List.filter_append]

theorem words_dropWhile (l : List Nat) : words (l.dropWhile isSpace) = words l := by
  induction l with
  | nil => rfl
  | cons c l ih =>
    by_cases hc : isSpace c = true
    · rw [List.dropWhile_cons, if_pos hc, ih, words_cons_space hc]
    · rw [List.dropWhile_cons, if_neg hc]

theorem words_append_space {sp : List Nat} (hsp : ∀ c ∈ sp, isSpace c = true) :
    ∀ m : List Nat, words (m ++ sp) = words m := by
  induction sp with
  | nil => intro m; rw [List.append_nil]
  | cons c sp ih =>
    intro m
    have hmc : m ++ c :: sp = (m ++ [c]) ++ sp := by simp
    rw [hmc, ih (fun d hd => hsp d (List.mem_cons_of_mem _ hd)),
      words_snoc_space (hsp c (List.mem_cons_self _ _)) m]

theorem rstrip_decomp (m : List Nat) :
    m = (m.reverse.dropWhile isSpace).reverse ++ (m.reverse.takeWhile isSpace).reverse := by
  calc m = m.reverse.reverse := m.reverse_reverse.symm
  _ = (List.takeWhile isSpace m.reverse ++ List.dropWhile isSpace m.reverse).reverse := by
      rw [List.takeWhile_append_dropWhile]
  _ = (m.reverse.dropWhile isSpace).reverse ++ (m.reverse.takeWhile isSpace).reverse := by
      rw [List.reverse_append]

theorem words_strip (l : List Nat) : words (strip l) = words l := by
  have h2 : ∀ c ∈ ((l.dropWhile isSpace).reverse.takeWhile isSpace).reverse,
      isSpace c = true := by
    intro c hc
    rw [List.mem_reverse] at hc
    exact List.mem_takeWhile_imp hc
  calc words (strip l)
      = words (((l.dropWhile isSpace).reverse.dropWhile isSpace).reverse) := rfl
  _ = words (((l.dropWhile isSpace).reverse.dropWhile isSpace).reverse ++
        ((l.dropWhile isSpace).reverse.takeWhile isSpace).reverse) :=
      (words_append_space h2 _).symm
  _ = words (l.dropWhile isSpace) := by rw [← rstrip_decomp (l.dropWhile isSpace)]
  _ = words l := words_dropWhile l

theorem splitOnP_chunks_no_space (l : List Nat) :
    ∀ w ∈ l.splitOnP isSpace, ∀ c ∈ w, isSpace c = false := by
  induction l with
  | nil =>
    intro w hw c hc
    rw [List.splitOnP_nil, List.mem_singleton] at hw
    subst hw
    simp at hc
  | cons d l ih =>
    intro w hw c hc
    rw [List.splitOnP_cons] at hw
    by_cases hd : isSpace d = true
    · rw [if_pos hd] at hw
      rcases List.mem_cons.mp hw with rfl | hw
      · simp at hc
      · exact ih w hw c hc
    · rw [if_neg hd] at hw
      cases hS : l.splitOnP isSpace with
      | nil => exact absurd hS (List.splitOnP_ne_nil _ l)
      | cons h t =>
        rw [hS] at hw
        rcases List.mem_cons.mp hw with rfl | hw
        · rcases List.mem_cons.mp hc with rfl | hc
          · simpa using hd
          · exact ih h (by rw [hS]; exact List.mem_cons_self h t) c hc
        · exact ih w (by rw [hS]; exact List.mem_cons_of_mem h hw) c hc

theorem words_no_space (l : List Nat) : ∀ w ∈ words l, ∀ c ∈ w, isSpace c = false :=
  fun w hw => splitOnP_chunks_no_space l w (List.mem_of_mem_filter hw)

theorem words_ne_nil (l : List Nat) : ∀ w ∈ words l, w ≠ [] := by
  intro w hw
  have h := List.of_mem_filter hw
  simpa [List.isEmpty_iff] using h

theorem words_join (ws : List (List Nat))
    (hne : ∀ w ∈ ws, w ≠ []) (hns : ∀ w ∈ ws, ∀ c ∈ w, isSpace c = false) :
    words (joinSp ws) = ws := by
  induction ws with
  | nil => rfl
  | cons w ws ih =>
    cases ws with
    | nil =>
      show words w = [w]
      have h1 : w.splitOnP isSpace = [w] :=
        List.splitOnP_eq_single isSpace w
          (fun x hx => by simp [hns w (List.mem_singleton_self w) x hx])
      rw [words, h1]
      simp [List.isEmpty_iff, hne w (List.mem_singleton_self w)]
    | cons w' ws' =>
      show words (w ++ 32 :: joinSp (w' :: ws')) = w :: w' :: ws'
      have h1 : (w ++ 32 :: joinSp (w' :: ws')).splitOnP isSpace =
          w :: (joinSp (w' :: ws')).splitOnP isSpace :=
        List.splitOnP_first isSpace w
          (fun x hx => by simp [hns w (List.mem_cons_self _ _) x hx]) 32 rfl _
      rw [words, h1]
      have h2 := ih (fun v hv => hne v (List.mem_cons_of_mem _ hv))
        (fun v hv => hns v (List.mem_cons_of_mem _ hv))
      rw [words] at h2
      simp only [List.filter_cons]
      rw [h2]
      simp [List.isEmpty_iff, hne w (List.mem_cons_self _ _)]

theorem isSpace_lowerChar (c : Nat) : isSpace (lowerChar c) = isSpace c := by
  unfold lowerChar
  split
  · rename_i h
    have h1 : isSpace (c + 32) = false := by simp only [isSpace]; simp; omega
    have h2 : isSpace c = false := by simp only [isSpace]; simp; omega
    rw [h1, h2]
  · rfl

theorem lowerChar_idem (c : Nat) : lowerChar (lowerChar c) = lowerChar c := by
  unfold lowerChar
  split
  · rename_i h
    rw [if_neg (by omega)]
  · rfl

theorem map_lowerChar_joinSp (ws : List (List Nat)) :
    (joinSp ws).map lowerChar = joinSp (ws.map (List.map lowerChar)) := by
  induction ws with
  | nil => rfl
  | cons w ws ih =>
    cases ws with
    | nil => rfl
    | cons w' ws' =>
      show (w ++ 32 :: joinSp (w' :: ws')).map lowerChar =
        w.map lowerChar ++ 32 :: joinSp ((w' :: ws').map (List.map lowerChar))
      rw [List.map_append, List.map_cons, ih]
      rfl

theorem normalize_strip (l : List Nat) : _normalize_name (strip l) = _normalize_name l := by
  unfold _normalize_name
  rw [words_strip (strip l), words_strip l]

theorem normalize_idem (l : List Nat) :
    _normalize_name (_normalize_name l) = _normalize_name l := by
  have hne' : ∀ w ∈ (words (strip l)).map (List.map lowerChar), w ≠ [] := by
    intro w hw
    obtain ⟨v, hv, rfl⟩ := List.mem_map.mp hw
    simpa using words_ne_nil (strip l) v hv
  have hns' : ∀ w ∈ (words (strip l)).map (List.map lowerChar), ∀ c ∈ w,
      isSpace c = false := by
    intro w hw c hc
    obtain ⟨v, hv, rfl⟩ := List.mem_map.mp hw
    obtain ⟨d, hd, rfl⟩ := List.mem_map.mp hc
    rw [isSpace_lowerChar]
    exact words_no_space (strip l) v hv d hd
  have hkey : words (_normalize_name l) = (words (strip l)).map (List.map lowerChar) := by
    show words ((joinSp (words (strip l))).map lowerChar) = _
    rw [map_lowerChar_joinSp (words (strip l))]
    exact words_join ((words (strip l)).map (List.map lowerChar)) hne' hns'
  show (joinSp (words (strip (_normalize_name l)))).map lowerChar = _normalize_name l
  rw [words_strip (_normalize_name l), hkey, ← map_lowerChar_joinSp (words (strip l)),
    List.map_map]
  exact List.map_congr_left fun c _ => lowerChar_idem c

end TrialBot

namespace TrialBot

theorem add_player_by_name_KeyInv (db : DB) (g : Nat) (name : List Nat) (now : Time)
    (h : KeyInv db) : KeyInv (add_player_by_name db g name now).1 := by
  unfold add_player_by_name
  dsimp only
  split
  · exact h
  · split
    · exact h
    · intro r hr
      rcases List.mem_append.mp hr with h1 | h1
      · exact h r h1
      · simp only [List.mem_singleton] at h1
        subst h1
        exact (normalize_strip name).symm

theorem mark_external_targets_row (db : DB) (g : Nat) (t : Time) (r : ExternalRow)
    (hinv : KeyInv db) (hr : r ∈ db.playersExternal) (hg : r.guildId = g) :
    { r with notifiedDone := true, notifiedAt := some t } ∈
      (mark_notified_external db g (_normalize_name r.name) t).playersExternal := by
  have himg := List.mem_map_of_mem
    (fun x => if x.guildId == g && x.nameKey == _normalize_name r.name then
      { x with notifiedDone := true, notifiedAt := some t } else x) hr
  dsimp only at himg
  rwa [if_pos (by simp [hg, hinv r hr])] at himg

/-- C10: normalization is insensitive to surrounding whitespace and
idempotent; consequently every row created by `add_player_by_name` (display
`name.strip()`, key `_normalize_name(name)`) satisfies
`name_key = _normalize_name(name_field)`, and the sweep's
`mark_notified_external(guild, _normalize_name(fetched name))` therefore hits
exactly the fetched row, so every due named trial is actually marked. -/
theorem C10_normalization_algebra_and_marking :
    (∀ l : List Nat, _normalize_name (strip l) = _normalize_name l) ∧
    (∀ l : List Nat, _normalize_name (_normalize_name l) = _normalize_name l) ∧
    (∀ (db : DB) (g : Nat) (name : List Nat) (now : Time),
      KeyInv db → KeyInv (add_player_by_name db g name now).1) ∧
    (∀ (db : DB) (g : Nat) (t : Time) (r : ExternalRow),
      KeyInv db → r ∈ db.playersExternal → r.guildId = g →
      { r with notifiedDone := true, notifiedAt := some t } ∈
        (mark_notified_external db g (_normalize_name r.name) t).playersExternal) :=
  ⟨normalize_strip, normalize_idem, add_player_by_name_KeyInv, mark_external_targets_row⟩

/-- Witness for C10 on the Bob Dylan store: the key invariant survives a
further insert, and marking through the re-normalized fetched name marks the
stored row itself. -/
theorem C10_normalization_algebra_and_marking_witness :
    (_normalize_name (strip (toCodes " A  b ")) = _normalize_name (toCodes " A  b ")) ∧
    (_normalize_name (_normalize_name (toCodes " A  b ")) = _normalize_name (toCodes " A  b ")) ∧
    KeyInv (add_player_by_name dbBob 1 (toCodes "Joe") 3).1 ∧
    ({ guildId := 1, name := toCodes "Bob  Dylan", nameKey := toCodes "bob dylan",
       addedAt := 0, trialEnd := 1209600, notifiedDone := true, notifiedAt := some 7 } ∈
      (mark_notified_external dbBob 1
        (_normalize_name (toCodes "Bob  Dylan")) 7).playersExternal) :=
  ⟨C10_normalization_algebra_and_marking.1 (toCodes " A  b "),
   C10_normalization_algebra_and_marking.2.1 (toCodes " A  b "),
   C10_normalization_algebra_and_marking.2.2.1 dbBob 1 (toCodes "Joe") 3
     (by unfold KeyInv; decide),
   C10_normalization_algebra_and_marking.2.2.2 dbBob 1 7
     { guildId := 1, name := toCodes "Bob  Dylan", nameKey := toCodes "bob dylan",
       addedAt := 0, trialEnd := 1209600, notifiedDone := false, notifiedAt := none }
     (by unfold KeyInv; decide) (by decide) (by decide)⟩

end TrialBot

namespace TrialBot

/-! ## Helper lemmas: ordering and stability of the listing queries -/

theorem filter_key_orderedInsert {α : Type} (r : α → α → Prop) [DecidableRel r]
    (key : α → Int) (hr : ∀ a b, r a b ↔ key a ≤ key b) (t : Int) (a : α) (l : List α) :
    (l.orderedInsert r a).filter (fun x => key x == t) =
      if key a == t then a :: l.filter (fun x => key x == t)
      else l.filter (fun x => key x == t) := by
  induction l with
  | nil =>
    by_cases h : (key a == t) = true <;>
      simp [List.orderedInsert, List.filter_cons, h]
  | cons b l ih =>
    rw [List.orderedInsert]
    by_cases hab : r a b
    · by_cases h : (key a == t) = true <;>
        simp [if_pos hab, List.filter_cons, h]
    · have hba : key b < key a := lt_of_not_le fun hc => hab ((hr a b).mpr hc)
      rw [if_neg hab, List.filter_cons, ih]
      by_cases hat : (key a == t) = true
      · have hbt : (key b == t) = false := by
          rw [beq_iff_eq] at hat
          rw [beq_eq_false_iff_ne]
          omega
        simp [hat, hbt, List.filter_cons]
      · simp [hat, List.filter_cons]

theorem filter_key_insertionSort {α : Type} (r : α → α → Prop) [DecidableRel r]
    (key : α → Int) (hr : ∀ a b, r a b ↔ key a ≤ key b) (t : Int) (l : List α) :
    (l.insertionSort r).filter (fun x => key x == t) = l.filter (fun x => key x == t) := by
  induction l with
  | nil => rfl
  | cons a l ih =>
    rw [List.insertionSort, filter_key_orderedInsert r key hr t a (l.insertionSort r), ih,
      List.filter_cons]

theorem sorted_fetch_all_discord (db : DB) (g : Nat) :
    List.Sorted byAdded (fetch_all_discord_players db g) :=
  List.sorted_insertionSort byAdded (db.players.filter (fun r => r.guildId == g))

theorem sorted_fetch_all_external (db : DB) (g : Nat) :
    List.Sorted byAddedE (fetch_all_external_players db g) :=
  List.sorted_insertionSort byAddedE (db.playersExternal.filter (fun r => r.guildId == g))

end TrialBot

namespace TrialBot

/-- C7 counterexample: in `dbC7` the external row was added (at 50) before
the linked row (at 100), both are in trial at `now = 0`, yet `/list`
presents the linked row first: the merged presentation of `list_all` is not
sorted ascending by `added_at` across the two kinds. -/
theorem C7_counterexample_not_merged_sorted :
    ¬ List.Sorted (fun a b : Time => a ≤ b) ((list_all dbC7 1 0).map entryAdded) := by
  decide

/-- C7 amended: `list_all` presents the in-trial block before the completed
block, and inside each block the linked rows (sorted ascending by `added_at`,
stable under ties) precede the named rows (likewise sorted and stable); the
sequence is not one merged sort across both kinds. -/
theorem C7_amended_grouped_per_kind_order :
    ∀ (db : DB) (g : Nat) (now : Time),
      (∃ d1 e1 d2 e2 : List ListedEntry,
        list_all db g now = d1 ++ e1 ++ d2 ++ e2 ∧
        (∀ x ∈ d1 ++ d2, x.isLinked = true) ∧
        (∀ x ∈ e1 ++ e2, x.isLinked = false) ∧
        (∀ x ∈ d1 ++ e1, entryEnd x > now) ∧
        (∀ x ∈ d2 ++ e2, ¬entryEnd x > now) ∧
        List.Sorted (fun a b => entryAdded a ≤ entryAdded b) d1 ∧
        List.Sorted (fun a b => entryAdded a ≤ entryAdded b) e1 ∧
        List.Sorted (fun a b => entryAdded a ≤ entryAdded b) d2 ∧
        List.Sorted (fun a b => entryAdded a ≤ entryAdded b) e2) ∧
      (∀ t : Int, (fetch_all_discord_players db g).filter (fun r => r.addedAt == t) =
        (db.players.filter (fun r => r.guildId == g)).filter (fun r => r.addedAt == t)) ∧
      (∀ t : Int, (fetch_all_external_players db g).filter (fun r => r.addedAt == t) =
        (db.playersExternal.filter (fun r => r.guildId == g)).filter
          (fun r => r.addedAt == t)) := by
  intro db g now
  refine ⟨?_, ?_, ?_⟩
  · have hd : List.Sorted (fun a b : ListedEntry => entryAdded a ≤ entryAdded b)
        ((fetch_all_discord_players db g).map ListedEntry.linked) := by
      rw [List.Sorted, List.pairwise_map]
      exact sorted_fetch_all_discord db g
    have he : List.Sorted (fun a b : ListedEntry => entryAdded a ≤ entryAdded b)
        ((fetch_all_external_players db g).map ListedEntry.named) := by
      rw [List.Sorted, List.pairwise_map]
      exact sorted_fetch_all_external db g
    refine ⟨((fetch_all_discord_players db g).map ListedEntry.linked).filter
        (fun e => decide (entryEnd e > now)),
      ((fetch_all_external_players db g).map ListedEntry.named).filter
        (fun e => decide (entryEnd e > now)),
      ((fetch_all_discord_players db g).map ListedEntry.linked).filter
        (fun e => !(decide (entryEnd e > now))),
      ((fetch_all_external_players db g).map ListedEntry.named).filter
        (fun e => !(decide (entryEnd e > now))), ?_, ?_, ?_, ?_, ?_, ?_, ?_, ?_, ?_⟩
    · show list_all db g now = _
      rw [list_all]
      simp only [List.filter_append]
      simp [List.append_assoc]
    · intro x hx
      rcases List.mem_append.mp hx with h | h <;>
      · obtain ⟨y, hy, rfl⟩ := List.mem_map.mp (List.mem_of_mem_filter h)
        rfl
    · intro x hx
      rcases List.mem_append.mp hx with h | h <;>
      · obtain ⟨y, hy, rfl⟩ := List.mem_map.mp (List.mem_of_mem_filter h)
        rfl
    · intro x hx
      rcases List.mem_append.mp hx with h | h <;>
        simpa using List.of_mem_filter h
    · intro x hx
      rcases List.mem_append.mp hx with h | h <;>
        simpa using List.of_mem_filter h
    · exact hd.filter _
    · exact he.filter _
    · exact hd.filter _
    · exact he.filter _
  · intro t
    exact filter_key_insertionSort byAdded (fun r => r.addedAt) (fun a b => Iff.rfl) t _
  · intro t
    exact filter_key_insertionSort byAddedE (fun r => r.addedAt) (fun a b => Iff.rfl) t _

/-- Witness for C7 amended, at the counterexample store. -/
theorem C7_amended_grouped_per_kind_order_witness :
    (∃ d1 e1 d2 e2 : List ListedEntry,
      list_all dbC7 1 0 = d1 ++ e1 ++ d2 ++ e2 ∧
      (∀ x ∈ d1 ++ d2, x.isLinked = true) ∧
      (∀ x ∈ e1 ++ e2, x.isLinked = false) ∧
      (∀ x ∈ d1 ++ e1, entryEnd x > 0) ∧
      (∀ x ∈ d2 ++ e2, ¬entryEnd x > 0) ∧
      List.Sorted (fun a b => entryAdded a ≤ entryAdded b) d1 ∧
      List.Sorted (fun a b => entryAdded a ≤ entryAdded b) e1 ∧
      List.Sorted (fun a b => entryAdded a ≤ entryAdded b) d2 ∧
      List.Sorted (fun a b => entryAdded a ≤ entryAdded b) e2) ∧
    (∀ t : Int, (fetch_all_discord_players dbC7 1).filter (fun r => r.addedAt == t) =
      (dbC7.players.filter (fun r => r.guildId == 1)).filter (fun r => r.addedAt == t)) ∧
    (∀ t : Int, (fetch_all_external_players dbC7 1).filter (fun r => r.addedAt == t) =
      (dbC7.playersExternal.filter (fun r => r.guildId == 1)).filter
        (fun r => r.addedAt == t)) :=
  C7_amended_grouped_per_kind_order dbC7 1 0

end TrialBot

namespace TrialBot

/-- C8 counterexample: the notes record of `(guild 1, user 1)` holds
`age = "23"` and `contribution = "events"`; re-submitting the required-fields
form overwrites the row with `age = ""` and `contribution = ""` — the prior
optional values are not left in place, contradicting the claim. -/
theorem C8_counterexample_optional_fields_reset :
    rowC8.age = toCodes "23" ∧ rowC8.contribution = toCodes "events" ∧
    dbC8.playerNotes = [rowC8] ∧
    (playerNotesModalSubmit dbC8 1 1 (toCodes "3 persos") (toCodes "GuildeX")
        (toCodes "opti") (toCodes "pvp") (toCodes "objectifs") 20).playerNotes =
      [{ guildId := 1, userId := 1, charactersLevel := toCodes "3 persos",
         prevGuildAlliance := toCodes "GuildeX", optimized := toCodes "opti",
         contentPreference := toCodes "pvp", objectives := toCodes "objectifs",
         age := [], contribution := [], updatedAt := 20 }] := by
  decide

/-- C8 amended: the required-fields form's upsert replaces all seven note
fields and `updated_at` on every submission: the five required fields take
the stripped submitted values, and `age`/`contribution` are reset to the
empty string every time (not only on first insert) because the form always
passes empty optionals; rows under other keys are untouched. -/
theorem C8_amended_submit_resets_optionals :
    ∀ (db : DB) (g u : Nat) (cl pga opt cp obj : List Nat) (now : Time),
      (∀ r ∈ (playerNotesModalSubmit db g u cl pga opt cp obj now).playerNotes,
        r.guildId = g → r.userId = u →
          r.charactersLevel = strip cl ∧ r.prevGuildAlliance = strip pga ∧
          r.optimized = strip opt ∧ r.contentPreference = strip cp ∧
          r.objectives = strip obj ∧ r.age = [] ∧ r.contribution = [] ∧
          r.updatedAt = now) ∧
      (∀ r ∈ db.playerNotes, ¬(r.guildId = g ∧ r.userId = u) →
        r ∈ (playerNotesModalSubmit db g u cl pga opt cp obj now).playerNotes) := by
  intro db g u cl pga opt cp obj now
  constructor
  · intro r hr hg hu
    unfold playerNotesModalSubmit upsert_notes at hr
    split at hr
    · simp only [List.mem_map] at hr
      obtain ⟨x, hx, rfl⟩ := hr
      by_cases hc : (x.guildId == g && x.userId == u) = true
      · rw [if_pos hc]
        exact ⟨rfl, rfl, rfl, rfl, rfl, rfl, rfl, rfl⟩
      · rw [if_neg hc] at hg hu ⊢
        exact absurd (by simp [hg, hu]) hc
    · rename_i hany
      rw [Bool.not_eq_true, List.any_eq_false] at hany
      rcases List.mem_append.mp hr with h | h
      · exact absurd (show (r.guildId == g && r.userId == u) = true by simp [hg, hu])
          (hany r h)
      · simp only [List.mem_singleton] at h
        subst h
        exact ⟨rfl, rfl, rfl, rfl, rfl, rfl, rfl, rfl⟩
  · intro r hr hne
    unfold playerNotesModalSubmit upsert_notes
    split
    · have := List.mem_map_of_mem (fun x => if x.guildId == g && x.userId == u then
        { x with charactersLevel := strip cl, prevGuildAlliance := strip pga,
                 optimized := strip opt, contentPreference := strip cp,
                 objectives := strip obj, age := [], contribution := [],
                 updatedAt := now } else x) hr
      dsimp only at this
      rwa [if_neg (fun hc => hne (by simpa using hc))] at this
    · exact List.mem_append_left _ hr

/-- Witness for C8 amended: the overwritten row of the counterexample store
carries the new required fields and empty optionals. -/
theorem C8_amended_submit_resets_optionals_witness :
    ({ guildId := 1, userId := 1, charactersLevel := toCodes "3 persos",
       prevGuildAlliance := toCodes "GuildeX", optimized := toCodes "opti",
       contentPreference := toCodes "pvp", objectives := toCodes "objectifs",
       age := [], contribution := [], updatedAt := 20 } : NotesRow).charactersLevel =
        strip (toCodes "3 persos") ∧
    ({ guildId := 1, userId := 1, charactersLevel := toCodes "3 persos",
       prevGuildAlliance := toCodes "GuildeX", optimized := toCodes "opti",
       contentPreference := toCodes "pvp", objectives := toCodes "objectifs",
       age := [], contribution := [], updatedAt := 20 } : NotesRow).age = [] := by
  have h := (C8_amended_submit_resets_optionals dbC8 1 1 (toCodes "3 persos")
    (toCodes "GuildeX") (toCodes "opti") (toCodes "pvp") (toCodes "objectifs") 20).1
    { guildId := 1, userId := 1, charactersLevel := toCodes "3 persos",
      prevGuildAlliance := toCodes "GuildeX", optimized := toCodes "opti",
      contentPreference := toCodes "pvp", objectives := toCodes "objectifs",
      age := [], contribution := [], updatedAt := 20 }
    (by decide) (by decide) (by decide)
  exact ⟨h.1, h.2.2.2.2.2.1⟩

end TrialBot

namespace TrialBot

/-! ## Helper lemmas: evolution of the store across a sweep pass -/

theorem rowEvolves_refl (r : PlayerRow) : rowEvolves r r :=
  ⟨rfl, rfl, rfl, rfl, id⟩

theorem extEvolves_refl (r : ExternalRow) : extEvolves r r :=
  ⟨rfl, rfl, rfl, rfl, rfl, id⟩

theorem rowEvolves_trans {a b c : PlayerRow} (h1 : rowEvolves a b) (h2 : rowEvolves b c) :
    rowEvolves a c :=
  ⟨h2.1.trans h1.1, h2.2.1.trans h1.2.1, h2.2.2.1.trans h1.2.2.1,
   h2.2.2.2.1.trans h1.2.2.2.1, fun h => h2.2.2.2.2 (h1.2.2.2.2 h)⟩

theorem extEvolves_trans {a b c : ExternalRow} (h1 : extEvolves a b) (h2 : extEvolves b c) :
    extEvolves a c :=
  ⟨h2.1.trans h1.1, h2.2.1.trans h1.2.1, h2.2.2.1.trans h1.2.2.1,
   h2.2.2.2.1.trans h1.2.2.2.1, h2.2.2.2.2.1.trans h1.2.2.2.2.1,
   fun h => h2.2.2.2.2.2 (h1.2.2.2.2.2 h)⟩

theorem forall2_refl_of {α : Type} {R : α → α → Prop} (hR : ∀ a, R a a) (l : List α) :
    List.Forall₂ R l l := by
  induction l with
  | nil => exact List.Forall₂.nil
  | cons a l ih => exact List.Forall₂.cons (hR a) ih

theorem forall2_trans_of {α : Type} (R : α → α → Prop)
    (hR : ∀ a b c, R a b → R b c → R a c) :
    ∀ {l1 l2 l3 : List α}, List.Forall₂ R l1 l2 → List.Forall₂ R l2 l3 →
      List.Forall₂ R l1 l3 := by
  intro l1 l2 l3 h12
  induction h12 generalizing l3 with
  | nil =>
    intro h23
    cases h23
    exact List.Forall₂.nil
  | cons hab h ih =>
    intro h23
    cases h23 with
    | cons hbc h' => exact List.Forall₂.cons (hR _ _ _ hab hbc) (ih h')

theorem forall2_mem_right {α β : Type} {R : α → β → Prop} :
    ∀ {l : List α} {l' : List β}, List.Forall₂ R l l' → ∀ b ∈ l', ∃ a ∈ l, R a b := by
  intro l l' h
  induction h with
  | nil => intro b hb; cases hb
  | cons hab h ih =>
    intro b hb
    rcases List.mem_cons.mp hb with rfl | hb
    · exact ⟨_, List.mem_cons_self _ _, hab⟩
    · obtain ⟨a, ha, hr⟩ := ih b hb
      exact ⟨a, List.mem_cons_of_mem _ ha, hr⟩

theorem DBEvolves_refl (db : DB) : DBEvolves db db :=
  ⟨forall2_refl_of rowEvolves_refl _, forall2_refl_of extEvolves_refl _, rfl⟩

theorem DBEvolves_trans {a b c : DB} (h1 : DBEvolves a b) (h2 : DBEvolves b c) :
    DBEvolves a c :=
  ⟨forall2_trans_of rowEvolves (fun _ _ _ ha hb => rowEvolves_trans ha hb) h1.1 h2.1,
   forall2_trans_of extEvolves (fun _ _ _ ha hb => extEvolves_trans ha hb) h1.2.1 h2.2.1,
   h2.2.2.trans h1.2.2⟩

theorem mark_notified_evolves (db : DB) (g u : Nat) (t : Time) :
    DBEvolves db (mark_notified db g u t) := by
  refine ⟨?_, forall2_refl_of extEvolves_refl _, rfl⟩
  show List.Forall₂ rowEvolves db.players (db.players.map _)
  induction db.players with
  | nil => exact List.Forall₂.nil
  | cons r l ih =>
    refine List.Forall₂.cons ?_ ih
    dsimp only
    by_cases hc : (r.guildId == g && r.userId == u) = true
    · rw [if_pos hc]
      exact ⟨rfl, rfl, rfl, rfl, fun _ => rfl⟩
    · rw [if_neg hc]
      exact rowEvolves_refl r

theorem mark_notified_external_evolves (db : DB) (g : Nat) (key : List Nat) (t : Time) :
    DBEvolves db (mark_notified_external db g key t) := by
  refine ⟨forall2_refl_of rowEvolves_refl _, ?_, rfl⟩
  show List.Forall₂ extEvolves db.playersExternal (db.playersExternal.map _)
  induction db.playersExternal with
  | nil => exact List.Forall₂.nil
  | cons r l ih =>
    refine List.Forall₂.cons ?_ ih
    dsimp only
    by_cases hc : (r.guildId == g && r.nameKey == key) = true
    · rw [if_pos hc]
      exact ⟨rfl, rfl, rfl, rfl, rfl, fun _ => rfl⟩
    · rw [if_neg hc]
      exact extEvolves_refl r

theorem notify_linked_loop_evolves (send : SendTarget → Bool) (g : Nat) (t : Time) :
    ∀ (l : List PlayerRow) (db : DB),
      DBEvolves db (notify_linked_loop send g t db l).1 := by
  intro l
  induction l with
  | nil => exact fun db => DBEvolves_refl db
  | cons r rest ih =>
    intro db
    rw [notify_linked_loop]
    by_cases hs : send (SendTarget.linked r.userId r.addedAt) = true
    · rw [if_pos hs]
      exact DBEvolves_trans (mark_notified_evolves db g r.userId t) (ih _)
    · rw [if_neg hs]
      exact DBEvolves_refl db

theorem notify_external_loop_evolves (send : SendTarget → Bool) (g : Nat) (t : Time) :
    ∀ (l : List ExternalRow) (db : DB),
      DBEvolves db (notify_external_loop send g t db l).1 := by
  intro l
  induction l with
  | nil => exact fun db => DBEvolves_refl db
  | cons r rest ih =>
    intro db
    rw [notify_external_loop]
    by_cases hs : send (SendTarget.named r.name r.addedAt) = true
    · rw [if_pos hs]
      exact DBEvolves_trans
        (mark_notified_external_evolves db g (_normalize_name r.name) t) (ih _)
    · rw [if_neg hs]
      exact DBEvolves_refl db

theorem process_guild_evolves (send : Nat → SendTarget → Bool) (canUse : Nat → Bool)
    (db : DB) (g : Nat) (now : Time) :
    DBEvolves db (process_guild send canUse db g now) := by
  rw [process_guild]
  cases get_trial_channel_id db g with
  | none => exact DBEvolves_refl db
  | some chan =>
    dsimp only
    by_cases hcan : canUse chan = true
    · rw [if_pos hcan]
      by_cases hp : (notify_linked_loop (send chan) g now db (fetch_due_trials db g now)).2 = true
      · rw [if_pos hp]
        exact DBEvolves_trans (notify_linked_loop_evolves (send chan) g now _ db)
          (notify_external_loop_evolves (send chan) g now _ _)
      · rw [if_neg hp]
        exact notify_linked_loop_evolves (send chan) g now _ db
    · rw [if_neg hcan]
      exact DBEvolves_refl db

theorem trial_checker_evolves (send : Nat → SendTarget → Bool) (canUse : Nat → Bool)
    (guilds : List Nat) (now : Time) :
    ∀ db : DB, DBEvolves db (trial_checker send canUse guilds db now) := by
  induction guilds with
  | nil => exact fun db => DBEvolves_refl db
  | cons g guilds ih =>
    intro db
    exact DBEvolves_trans (process_guild_evolves send canUse db g now) (ih _)

end TrialBot

namespace TrialBot

theorem evolves_preserves_GuildDueMarked {db db' : DB} {g : Nat} {now : Time}
    (he : DBEvolves db db') (h : GuildDueMarked g now db) : GuildDueMarked g now db' := by
  intro r' hr' hg hdue
  obtain ⟨r, hr, hev⟩ := forall2_mem_right he.1 r' hr'
  exact hev.2.2.2.2 (h r hr (hev.1 ▸ hg) (hev.2.2.2.1 ▸ hdue))

theorem evolves_preserves_GuildDueMarkedExt {db db' : DB} {g : Nat} {now : Time}
    (he : DBEvolves db db') (h : GuildDueMarkedExt g now db) : GuildDueMarkedExt g now db' := by
  intro r' hr' hg hdue
  obtain ⟨r, hr, hev⟩ := forall2_mem_right he.2.1 r' hr'
  exact hev.2.2.2.2.2 (h r hr (hev.1 ▸ hg) (hev.2.2.2.2.1 ▸ hdue))

theorem evolves_preserves_KeyInv {db db' : DB} (he : DBEvolves db db') (h : KeyInv db) :
    KeyInv db' := by
  intro r' hr'
  obtain ⟨r, hr, hev⟩ := forall2_mem_right he.2.1 r' hr'
  rw [hev.2.2.1, hev.2.1]
  exact h r hr

theorem evolves_get_trial_channel_id {db db' : DB} (he : DBEvolves db db') (g : Nat) :
    get_trial_channel_id db' g = get_trial_channel_id db g := by
  rw [get_trial_channel_id, get_trial_channel_id, he.2.2]

theorem notify_linked_loop_all_success (send : SendTarget → Bool) (g : Nat) (t : Time) :
    ∀ (l : List PlayerRow) (db : DB),
      (∀ r ∈ l, send (SendTarget.linked r.userId r.addedAt) = true) →
      notify_linked_loop send g t db l =
        (l.foldl (fun d rl => mark_notified d g rl.userId t) db, true) := by
  intro l
  induction l with
  | nil => intro db _; rfl
  | cons r rest ih =>
    intro db hs
    rw [notify_linked_loop, if_pos (hs r (List.mem_cons_self _ _)),
      ih _ (fun r' hr' => hs r' (List.mem_cons_of_mem _ hr')), List.foldl_cons]

theorem notify_external_loop_all_success (send : SendTarget → Bool) (g : Nat) (t : Time) :
    ∀ (l : List ExternalRow) (db : DB),
      (∀ r ∈ l, send (SendTarget.named r.name r.addedAt) = true) →
      notify_external_loop send g t db l =
        (l.foldl (fun d rl => mark_notified_external d g (_normalize_name rl.name) t) db,
          true) := by
  intro l
  induction l with
  | nil => intro db _; rfl
  | cons r rest ih =>
    intro db hs
    rw [notify_external_loop, if_pos (hs r (List.mem_cons_self _ _)),
      ih _ (fun r' hr' => hs r' (List.mem_cons_of_mem _ hr')), List.foldl_cons]

theorem foldl_mark_covers (g : Nat) (t : Time) :
    ∀ (l : List PlayerRow) (db : DB) (r' : PlayerRow),
      r' ∈ (l.foldl (fun d rl => mark_notified d g rl.userId t) db).players →
      (r' ∈ db.players ∧ ∀ rl ∈ l, ¬(r'.guildId = g ∧ r'.userId = rl.userId)) ∨
      r'.notifiedDone = true := by
  intro l
  induction l with
  | nil =>
    intro db r' hr'
    exact .inl ⟨hr', fun rl hrl => absurd hrl (List.not_mem_nil rl)⟩
  | cons rl rest ih =>
    intro db r' hr'
    rw [List.foldl_cons] at hr'
    rcases ih _ r' hr' with ⟨hmem, hrest⟩ | hnot
    · simp only [mark_notified, List.mem_map] at hmem
      obtain ⟨x, hx, rfl⟩ := hmem
      by_cases hc : (x.guildId == g && x.userId == rl.userId) = true
      · rw [if_pos hc]
        exact .inr rfl
      · rw [if_neg hc] at hrest ⊢
        refine .inl ⟨hx, fun rl' hrl' => ?_⟩
        rcases List.mem_cons.mp hrl' with rfl | hrl'
        · intro hk
          exact hc (by simp [hk.1, hk.2])
        · exact hrest rl' hrl'
    · exact .inr hnot

theorem foldl_mark_ext_covers (g : Nat) (t : Time) :
    ∀ (l : List ExternalRow) (db : DB) (r' : ExternalRow),
      (∀ rl ∈ l, rl.nameKey = _normalize_name rl.name) →
      r' ∈ (l.foldl
        (fun d rl => mark_notified_external d g (_normalize_name rl.name) t) db).playersExternal →
      (r' ∈ db.playersExternal ∧ ∀ rl ∈ l, ¬(r'.guildId = g ∧ r'.nameKey = rl.nameKey)) ∨
      r'.notifiedDone = true := by
  intro l
  induction l with
  | nil =>
    intro db r' _ hr'
    exact .inl ⟨hr', fun rl hrl => absurd hrl (List.not_mem_nil rl)⟩
  | cons rl rest ih =>
    intro db r' hkeys hr'
    rw [List.foldl_cons] at hr'
    rcases ih _ r' (fun v hv => hkeys v (List.mem_cons_of_mem _ hv)) hr' with
      ⟨hmem, hrest⟩ | hnot
    · simp only [mark_notified_external, List.mem_map] at hmem
      obtain ⟨x, hx, rfl⟩ := hmem
      by_cases hc : (x.guildId == g && x.nameKey == _normalize_name rl.name) = true
      · rw [if_pos hc]
        exact .inr rfl
      · rw [if_neg hc] at hrest ⊢
        refine .inl ⟨hx, fun rl' hrl' => ?_⟩
        rcases List.mem_cons.mp hrl' with rfl | hrl'
        · intro hk
          apply hc
          have hxkey : x.nameKey = _normalize_name rl'.name := by
            rw [hk.2, hkeys rl' (List.mem_cons_self _ _)]
          simp [hk.1, hxkey]
        · exact hrest rl' hrl'
    · exact .inr hnot

theorem foldl_mark_players_only (g : Nat) (t : Time) :
    ∀ (l : List PlayerRow) (db : DB),
      (l.foldl (fun d rl => mark_notified d g rl.userId t) db).playersExternal =
        db.playersExternal ∧
      (l.foldl (fun d rl => mark_notified d g rl.userId t) db).guildSettings =
        db.guildSettings := by
  intro l
  induction l with
  | nil => exact fun db => ⟨rfl, rfl⟩
  | cons rl rest ih =>
    intro db
    rw [List.foldl_cons]
    exact ih _

theorem foldl_mark_ext_external_only (g : Nat) (t : Time) :
    ∀ (l : List ExternalRow) (db : DB),
      (l.foldl
        (fun d rl => mark_notified_external d g (_normalize_name rl.name) t) db).players =
        db.players := by
  intro l
  induction l with
  | nil => exact fun db => rfl
  | cons rl rest ih =>
    intro db
    rw [List.foldl_cons]
    exact ih _

end TrialBot

namespace TrialBot

theorem process_guild_marks_due (send : Nat → SendTarget → Bool) (canUse : Nat → Bool)
    (db : DB) (g : Nat) (now : Time) (chan : Nat)
    (hchan : get_trial_channel_id db g = some chan)
    (hcan : canUse chan = true)
    (hsend : ∀ tgt, send chan tgt = true)
    (hinv : KeyInv db) :
    GuildDueMarked g now (process_guild send canUse db g now) ∧
    GuildDueMarkedExt g now (process_guild send canUse db g now) := by
  rw [process_guild, hchan]
  dsimp only
  rw [if_pos hcan,
    notify_linked_loop_all_success (send chan) g now (fetch_due_trials db g now) db
      (fun r _ => hsend _)]
  dsimp only
  rw [if_pos rfl,
    notify_external_loop_all_success (send chan) g now _ _ (fun r _ => hsend _)]
  dsimp only
  constructor
  · intro r' hr' hg hdue
    rw [foldl_mark_ext_external_only] at hr'
    rcases foldl_mark_covers g now (fetch_due_trials db g now) db r' hr' with
      ⟨hmem, hrest⟩ | hnot
    · by_cases hnd : r'.notifiedDone = true
      · exact hnd
      · exact absurd ⟨hg, rfl⟩ (hrest r' (mem_fetch_due_trials.mpr
          ⟨hmem, hg, Bool.not_eq_true _ ▸ hnd, hdue⟩))
    · exact hnot
  · intro r' hr' hg hdue
    have hx : (List.foldl (fun d rl => mark_notified d g rl.userId now) db
        (fetch_due_trials db g now)).playersExternal = db.playersExternal :=
      (foldl_mark_players_only g now (fetch_due_trials db g now) db).1
    have hkeys : ∀ rl ∈ fetch_due_trials_external
        (List.foldl (fun d rl => mark_notified d g rl.userId now) db
          (fetch_due_trials db g now)) g now,
        rl.nameKey = _normalize_name rl.name := by
      intro rl hrl
      have := (mem_fetch_due_trials_external.mp hrl).1
      rw [hx] at this
      exact hinv rl this
    rcases foldl_mark_ext_covers g now _ _ r' hkeys hr' with ⟨hmem, hrest⟩ | hnot
    · by_cases hnd : r'.notifiedDone = true
      · exact hnd
      · refine absurd ⟨hg, rfl⟩ (hrest r' (mem_fetch_due_trials_external.mpr
          ⟨hmem, hg, ?_, hdue⟩))
        cases hb : r'.notifiedDone
        · rfl
        · exact absurd hb hnd
    · exact hnot

/-- C5: per-community isolation of the sweep: whatever happens in the other
communities of the pass (including the messaging collaborator raising for
every one of them), if community `gB` has a configured, usable channel and
its sends all succeed, then after the pass every due record of `gB` — linked
and named — is marked notified. -/
theorem C5_per_community_isolation :
    ∀ (send : Nat → SendTarget → Bool) (canUse : Nat → Bool) (guilds : List Nat)
      (db : DB) (now : Time) (gB chanB : Nat),
      gB ∈ guilds →
      get_trial_channel_id db gB = some chanB →
      canUse chanB = true →
      (∀ tgt, send chanB tgt = true) →
      KeyInv db →
      (∀ r ∈ (trial_checker send canUse guilds db now).players,
        r.guildId = gB → r.trialEnd ≤ now → r.notifiedDone = true) ∧
      (∀ r ∈ (trial_checker send canUse guilds db now).playersExternal,
        r.guildId = gB → r.trialEnd ≤ now → r.notifiedDone = true) := by
  intro send canUse guilds db now gB chanB hmem hchan hcan hsend hinv
  obtain ⟨pre, post, rfl⟩ := List.append_of_mem hmem
  rw [trial_checker, List.foldl_append, List.foldl_cons]
  have hev1 : DBEvolves db
      (List.foldl (fun db g => process_guild send canUse db g now) db pre) :=
    trial_checker_evolves send canUse pre now db
  have hchan1 : get_trial_channel_id
      (List.foldl (fun db g => process_guild send canUse db g now) db pre) gB =
        some chanB := by
    rw [evolves_get_trial_channel_id hev1, hchan]
  have hinv1 := evolves_preserves_KeyInv hev1 hinv
  have hmarks := process_guild_marks_due send canUse _ gB now chanB hchan1 hcan hsend hinv1
  have hev2 := trial_checker_evolves send canUse post now
    (process_guild send canUse
      (List.foldl (fun db g => process_guild send canUse db g now) db pre) gB now)
  exact ⟨evolves_preserves_GuildDueMarked hev2 hmarks.1,
    evolves_preserves_GuildDueMarkedExt hev2 hmarks.2⟩

/-- Witness for C5: with an always-succeeding collaborator, the second due
record of `dbC6` ends the pass marked. -/
theorem C5_per_community_isolation_witness :
    ({ guildId := 1, userId := 2, addedAt := 200, trialEnd := 1209800, notes := [],
       notifiedDone := true, notifiedAt := some 2000000 } : PlayerRow).notifiedDone = true :=
  (C5_per_community_isolation (fun _ _ => true) (fun _ => true) [1] dbC6 2000000 1 5
    (by decide) (by decide) rfl (fun _ => rfl) (by unfold KeyInv; decide)).1
    { guildId := 1, userId := 2, addedAt := 200, trialEnd := 1209800, notes := [],
      notifiedDone := true, notifiedAt := some 2000000 }
    (by decide) (by decide) (by decide)

end TrialBot

namespace TrialBot

theorem notify_linked_loop_fail_at (send : SendTarget → Bool) (g : Nat) (t : Time) :
    ∀ (l1 : List PlayerRow) (db : DB) (r : PlayerRow) (l2 : List PlayerRow),
      (∀ r' ∈ l1, send (SendTarget.linked r'.userId r'.addedAt) = true) →
      send (SendTarget.linked r.userId r.addedAt) = false →
      notify_linked_loop send g t db (l1 ++ r :: l2) =
        (l1.foldl (fun d rl => mark_notified d g rl.userId t) db, false) := by
  intro l1
  induction l1 with
  | nil =>
    intro db r l2 _ hf
    rw [List.nil_append, notify_linked_loop, if_neg (by simp [hf])]
    rfl
  | cons a l1 ih =>
    intro db r l2 hs hf
    rw [List.cons_append, notify_linked_loop, if_pos (hs a (List.mem_cons_self _ _)),
      ih _ r l2 (fun x hx => hs x (List.mem_cons_of_mem _ hx)) hf, List.foldl_cons]

theorem foldl_mark_skips (g : Nat) (t : Time) :
    ∀ (l : List PlayerRow) (db : DB) (r2 : PlayerRow),
      r2 ∈ db.players → (∀ rl ∈ l, ¬(r2.guildId = g ∧ r2.userId = rl.userId)) →
      r2 ∈ (l.foldl (fun d rl => mark_notified d g rl.userId t) db).players := by
  intro l
  induction l with
  | nil => exact fun db r2 h _ => h
  | cons rl rest ih =>
    intro db r2 hmem hk
    rw [List.foldl_cons]
    refine ih _ r2 ?_ (fun x hx => hk x (List.mem_cons_of_mem _ hx))
    have himg := List.mem_map_of_mem (fun x => if x.guildId == g && x.userId == rl.userId
      then { x with notifiedDone := true, notifiedAt := some t } else x) hmem
    dsimp only at himg
    rwa [if_neg (fun hc => hk rl (List.mem_cons_self _ _) (by simpa using hc))] at himg

theorem foldl_mark_preserves_marked (g : Nat) (t : Time) :
    ∀ (l : List PlayerRow) (db : DB) (u : Nat),
      (∃ r' ∈ db.players, r'.guildId = g ∧ r'.userId = u ∧ r'.notifiedDone = true) →
      ∃ r' ∈ (l.foldl (fun d rl => mark_notified d g rl.userId t) db).players,
        r'.guildId = g ∧ r'.userId = u ∧ r'.notifiedDone = true := by
  intro l
  induction l with
  | nil => exact fun db u h => h
  | cons rl rest ih =>
    rintro db u ⟨r', hmem, hg, hu, hnd⟩
    rw [List.foldl_cons]
    refine ih _ u ?_
    have himg := List.mem_map_of_mem (fun x => if x.guildId == g && x.userId == rl.userId
      then { x with notifiedDone := true, notifiedAt := some t } else x) hmem
    dsimp only at himg
    by_cases hc : (r'.guildId == g && r'.userId == rl.userId) = true
    · rw [if_pos hc] at himg
      exact ⟨_, himg, hg, hu, rfl⟩
    · rw [if_neg hc] at himg
      exact ⟨_, himg, hg, hu, hnd⟩

theorem foldl_mark_marks_key (g : Nat) (t : Time) :
    ∀ (l : List PlayerRow) (db : DB) (u : Nat),
      (∃ r0 ∈ db.players, r0.guildId = g ∧ r0.userId = u) →
      (∃ rl ∈ l, rl.userId = u) →
      ∃ r' ∈ (l.foldl (fun d rl => mark_notified d g rl.userId t) db).players,
        r'.guildId = g ∧ r'.userId = u ∧ r'.notifiedDone = true := by
  intro l
  induction l with
  | nil =>
    rintro db u - ⟨rl, hrl, -⟩
    exact absurd hrl (List.not_mem_nil rl)
  | cons rl rest ih =>
    rintro db u ⟨r0, hmem, hg0, hu0⟩ ⟨w, hw, hwu⟩
    rw [List.foldl_cons]
    have himg := List.mem_map_of_mem (fun x => if x.guildId == g && x.userId == rl.userId
      then { x with notifiedDone := true, notifiedAt := some t } else x) hmem
    dsimp only at himg
    rcases List.mem_cons.mp hw with rfl | hw
    · rw [if_pos (by simp [hg0, hu0, hwu])] at himg
      exact foldl_mark_preserves_marked g t rest _ u ⟨_, himg, hg0, hu0, rfl⟩
    · by_cases hc : (r0.guildId == g && r0.userId == rl.userId) = true
      · rw [if_pos hc] at himg
        exact ih _ u ⟨_, himg, hg0, hu0⟩ ⟨w, hw, hwu⟩
      · rw [if_neg hc] at himg
        exact ih _ u ⟨_, himg, hg0, hu0⟩ ⟨w, hw, hwu⟩

end TrialBot

namespace TrialBot

/-- C6 counterexample: guild 1 has two due records; the collaborator raises
for the first record's send and would succeed for the second, yet after the
pass nothing at all is marked: the failure aborted the rest of the batch, so
the later record was neither sent nor marked in that pass. -/
theorem C6_counterexample_batch_aborted :
    (fetch_due_trials dbC6 1 2000000).length = 2 ∧
    sendC6 5 (SendTarget.linked 2 200) = true ∧
    sendC6 5 (SendTarget.linked 1 100) = false ∧
    trial_checker sendC6 (fun _ => true) [1] dbC6 2000000 = dbC6 := by
  decide

/-- C6 amended: within one community's batch, a failure raised by one
record's send leaves the earlier records of the batch marked (their
send+mark already completed) but aborts the remainder of the pass for that
community: the whole pass effect is exactly the marks of the records before
the failing one, and — under key uniqueness of the store — the failing
record and every later record of the batch stay unmarked and are returned
again by `fetch_due` at any later instant. -/
theorem C6_amended_send_failure_aborts_rest_of_batch :
    ∀ (send : Nat → SendTarget → Bool) (canUse : Nat → Bool) (db : DB) (g chan : Nat)
      (now : Time) (l1 : List PlayerRow) (r : PlayerRow) (l2 : List PlayerRow),
      get_trial_channel_id db g = some chan →
      canUse chan = true →
      fetch_due_trials db g now = l1 ++ r :: l2 →
      (∀ r' ∈ l1, send chan (SendTarget.linked r'.userId r'.addedAt) = true) →
      send chan (SendTarget.linked r.userId r.addedAt) = false →
      process_guild send canUse db g now =
        l1.foldl (fun d rl => mark_notified d g rl.userId now) db ∧
      (∀ r1 ∈ l1, ∃ r' ∈ (process_guild send canUse db g now).players,
        r'.guildId = g ∧ r'.userId = r1.userId ∧ r'.notifiedDone = true) ∧
      ((db.players.map (fun x => (x.guildId, x.userId))).Nodup →
        ∀ r2 ∈ r :: l2, ∀ now' : Time, now ≤ now' →
          r2 ∈ fetch_due_trials (process_guild send canUse db g now) g now') := by
  intro send canUse db g chan now l1 r l2 hchan hcan hfetch hs hf
  have hEq : process_guild send canUse db g now =
      l1.foldl (fun d rl => mark_notified d g rl.userId now) db := by
    rw [process_guild, hchan]
    dsimp only
    rw [if_pos hcan, hfetch,
      notify_linked_loop_fail_at (send chan) g now l1 db r l2 hs hf]
    rfl
  refine ⟨hEq, ?_, ?_⟩
  · intro r1 hr1
    have hr1f : r1 ∈ fetch_due_trials db g now := by
      rw [hfetch]
      exact List.mem_append_left _ hr1
    obtain ⟨hm, hg1, -, -⟩ := mem_fetch_due_trials.mp hr1f
    rw [hEq]
    exact foldl_mark_marks_key g now l1 db r1.userId ⟨r1, hm, hg1, rfl⟩ ⟨r1, hr1, rfl⟩
  · intro hnodup r2 hr2 now' hnow
    have hr2f : r2 ∈ fetch_due_trials db g now := by
      rw [hfetch]
      exact List.mem_append_right _ hr2
    obtain ⟨hr2mem, hr2g, hr2nd, hr2due⟩ := mem_fetch_due_trials.mp hr2f
    have hsub : List.Sublist
        ((fetch_due_trials db g now).map (fun x => (x.guildId, x.userId)))
        (db.players.map (fun x => (x.guildId, x.userId))) :=
      (List.filter_sublist _).map _
    have hnd2 := List.Nodup.sublist hsub hnodup
    rw [hfetch, List.map_append] at hnd2
    have hdisj := List.disjoint_of_nodup_append hnd2
    have hskip : ∀ rl ∈ l1, ¬(r2.guildId = g ∧ r2.userId = rl.userId) := by
      intro rl hrl hk
      have hrlf : rl ∈ fetch_due_trials db g now := by
        rw [hfetch]
        exact List.mem_append_left _ hrl
      have hrlg := (mem_fetch_due_trials.mp hrlf).2.1
      have he : ((r2.guildId, r2.userId) : Nat × Nat) = (rl.guildId, rl.userId) := by
        rw [hk.1, hk.2, hrlg]
      exact hdisj (List.mem_map_of_mem _ hrl) (he ▸ List.mem_map_of_mem _ hr2)
    have hr2' := foldl_mark_skips g now l1 db r2 hr2mem hskip
    rw [hEq]
    exact mem_fetch_due_trials.mpr ⟨hr2', hr2g, hr2nd, le_trans hr2due hnow⟩

end TrialBot

namespace TrialBot

/-- Witness for C6 amended on the counterexample store: after the aborted
pass, the second record is still returned by `fetch_due` at a later instant. -/
theorem C6_amended_send_failure_aborts_rest_of_batch_witness :
    rowC6b ∈ fetch_due_trials
      (process_guild sendC6 (fun _ => true) dbC6 1 2000000) 1 3000000 :=
  (C6_amended_send_failure_aborts_rest_of_batch sendC6 (fun _ => true) dbC6 1 5 2000000
    [] rowC6a [rowC6b] (by decide) rfl (by decide) (by decide) (by decide)).2.2
    (by decide) rowC6b (by decide) 3000000 (by decide)

end TrialBot
